import Mathlib

/-!
# LZAV round-trip harness (`main.cpp`)

A shallow embedding of the benchmark/validation harness in `main.cpp`
together with the properties of its control flow.

Modelling conventions.

* `int` is a 32-bit two's-complement integer (`CInt`), `size_t` is a 64-bit
  unsigned integer held in a `Nat`; conversions between the two are written
  out with explicit modular arithmetic.
* `std::vector<char>` is a `List Nat` of bytes (`0..255`).
* The functions of `lzav.h` are not part of the harness: they are the fields
  of `Capability`, and the harness is a function of what they return.  The
  `LZAV_E_*` constants of that header are the fields of `ErrorCodes`.
* A run is recorded as the sequence of its observable events (capability
  calls, buffer constructions, lines written to `std::cout` / `std::cerr`)
  and the way the process ended.
* Wall-clock measurements and the floating-point figures derived from them
  (durations, ratios, throughput lines) are not part of the model.
-/

namespace Lzav

/-! ## Machine integers -/

/-- Smallest value of `int`. -/
def INT_MIN : Int := -2147483648

/-- Largest value of `int`. -/
def INT_MAX : Int := 2147483647

/-- The C++ type `int`. -/
abbrev CInt := { v : Int // INT_MIN ≤ v ∧ v ≤ INT_MAX }

/-- Value of `static_cast<int>(n)` for a `size_t` value `n` (modular). -/
def wrap_int (n : Nat) : Int :=
  if n % 4294967296 < 2147483648 then ((n % 4294967296 : Nat) : Int)
  else ((n % 4294967296 : Nat) : Int) - 4294967296

/-- The conversion `static_cast<int>(src_len)`. -/
def static_cast_int (n : Nat) : CInt :=
  ⟨wrap_int n, by unfold wrap_int INT_MIN INT_MAX; split <;> omega⟩

/-- The conversion `static_cast<size_t>(x)` of an `int` (also the implicit
conversion of an `int` passed as a vector size). -/
def static_cast_size_t (x : CInt) : Nat := (x.val % 18446744073709551616).toNat

/-- The conversion `(char)(v)` of an unsigned value: its low byte. -/
def static_cast_char (v : Nat) : Nat := v % 256

/-! ## Buffers -/

/-- A `std::vector<char>`: its bytes in order. -/
abbrev Buf := List Nat

/-- The largest element count `std::vector<char>` accepts (`max_size()`). -/
def max_size : Nat := 9223372036854775807

/-- Whether `std::vector<char> v(n)` throws `std::length_error`. -/
def vector_throws (n : Nat) : Bool := decide (max_size < n)

/-- The value-initialised vector built by `std::vector<char> v(n)`. -/
def vector_init (n : Nat) : Buf := List.replicate n 0

/-- The fill loop `for (i = 0; i < src_len; ++i) src_buf[i] = (char)('A' + (i % 26));`. -/
def fill_pattern (src_len : Nat) (buf : Array Nat) : Array Nat :=
  (List.range src_len).foldl (fun b i => b.setD i (static_cast_char (65 + i % 26))) buf

/-- The source buffer `src_buf` of a run with the given `src_len`:
`std::vector<char> src_buf(src_len)` followed by the fill loop. -/
def src_buf (src_len : Nat) : Buf := (fill_pattern src_len (mkArray src_len 0)).toList

/-- Contents of a destination buffer after a capability call wrote the bytes
`w` from its start; the buffer keeps its size. -/
def store (dst : Buf) (w : Buf) : Buf :=
  (w.take dst.length).map static_cast_char ++ dst.drop w.length

/-- The call `std::equal(a.begin(), a.end(), b.begin())`. -/
def std_equal : Buf → Buf → Bool
  | [], _ => true
  | _ :: _, [] => false
  | x :: xs, y :: ys => x == y && std_equal xs ys

/-! ## Error codes and their classification -/

/-- The error-code constants of `lzav.h`. -/
structure ErrorCodes where
  LZAV_E_PARAMS : Int
  LZAV_E_SRCOOB : Int
  LZAV_E_DSTOOB : Int
  LZAV_E_REFOOB : Int
  LZAV_E_DSTLEN : Int
  LZAV_E_UNKFMT : Int
  LZAV_E_PTROVR : Int

/-- The seven constants, in the order of the `switch`. -/
def ErrorCodes.all (E : ErrorCodes) : List Int :=
  [E.LZAV_E_PARAMS, E.LZAV_E_SRCOOB, E.LZAV_E_DSTOOB, E.LZAV_E_REFOOB,
   E.LZAV_E_DSTLEN, E.LZAV_E_UNKFMT, E.LZAV_E_PTROVR]

/-- The `case` labels of a `switch` are pairwise different. -/
def ErrorCodes.distinct (E : ErrorCodes) : Prop := E.all.Nodup

/-- Every constant is a negative integer. -/
def ErrorCodes.negative (E : ErrorCodes) : Prop := ∀ c ∈ E.all, c < 0

instance (E : ErrorCodes) : Decidable E.distinct := by
  unfold ErrorCodes.distinct; infer_instance

instance (E : ErrorCodes) : Decidable E.negative := by
  unfold ErrorCodes.negative; infer_instance

/-- The function `getLzavErrorString`. -/
def getLzavErrorString (E : ErrorCodes) (errorCode : Int) : String :=
  if errorCode = E.LZAV_E_PARAMS then "LZAV_E_PARAMS: 参数不正确。"
  else if errorCode = E.LZAV_E_SRCOOB then "LZAV_E_SRCOOB: 源缓冲区越界。"
  else if errorCode = E.LZAV_E_DSTOOB then "LZAV_E_DSTOOB: 目标缓冲区越界。"
  else if errorCode = E.LZAV_E_REFOOB then "LZAV_E_REFOOB: 后向引用越界。"
  else if errorCode = E.LZAV_E_DSTLEN then "LZAV_E_DSTLEN: 解压缩长度不匹配。"
  else if errorCode = E.LZAV_E_UNKFMT then "LZAV_E_UNKFMT: 未知流格式。"
  else if errorCode = E.LZAV_E_PTROVR then "LZAV_E_PTROVR: 指针溢出。"
  else "未知 LZAV 错误"

/-! ## The compression capability -/

/-- The two compression strategies exercised by `main`. -/
inductive Strategy
  | dflt
  | hi
  deriving DecidableEq, Repr

/-- The functions of `lzav.h` called by `main`.  A compression or
decompression call `f(src, dst, srcl, dstl)` yields its `int` result and the
bytes it wrote to `dst`. -/
structure Capability where
  lzav_compress_bound : CInt → CInt
  lzav_compress_bound_hi : CInt → CInt
  lzav_compress_default : Buf → Buf → CInt → CInt → CInt × Buf
  lzav_compress_hi : Buf → Buf → CInt → CInt → CInt × Buf
  lzav_decompress : Buf → Buf → CInt → CInt → CInt × Buf

/-- The bound function of a strategy. -/
def Capability.bound (cap : Capability) : Strategy → CInt → CInt
  | .dflt => cap.lzav_compress_bound
  | .hi => cap.lzav_compress_bound_hi

/-- The compression function of a strategy. -/
def Capability.compress (cap : Capability) : Strategy → Buf → Buf → CInt → CInt → CInt × Buf
  | .dflt => cap.lzav_compress_default
  | .hi => cap.lzav_compress_hi

/-! ## The local variables of `main`, as functions of the capability -/

/-- The variable `max_comp_len_default` / `max_comp_len_hi`. -/
def max_comp_len (cap : Capability) (s : Strategy) (src_len : Nat) : CInt :=
  cap.bound s (static_cast_int src_len)

/-- The vector `comp_buf_default` / `comp_buf_hi` as constructed. -/
def comp_buf_init (cap : Capability) (s : Strategy) (src_len : Nat) : Buf :=
  vector_init (static_cast_size_t (max_comp_len cap s src_len))

/-- The call `lzav_compress_default(...)` / `lzav_compress_hi(...)`. -/
def compress_call (cap : Capability) (s : Strategy) (src_len : Nat) : CInt × Buf :=
  cap.compress s (src_buf src_len) (comp_buf_init cap s src_len)
    (static_cast_int src_len) (max_comp_len cap s src_len)

/-- The variable `comp_len_default` / `comp_len_hi`. -/
def comp_len (cap : Capability) (s : Strategy) (src_len : Nat) : CInt :=
  (compress_call cap s src_len).1

/-- The vector `comp_buf_default` / `comp_buf_hi` after compression. -/
def comp_buf (cap : Capability) (s : Strategy) (src_len : Nat) : Buf :=
  store (comp_buf_init cap s src_len) (compress_call cap s src_len).2

/-- The call `lzav_decompress(...)` of a strategy. -/
def decompress_call (cap : Capability) (s : Strategy) (src_len : Nat) : CInt × Buf :=
  cap.lzav_decompress (comp_buf cap s src_len) (vector_init src_len)
    (comp_len cap s src_len) (static_cast_int src_len)

/-- The variable `decomp_len_default` / `decomp_len_hi`. -/
def decomp_len (cap : Capability) (s : Strategy) (src_len : Nat) : CInt :=
  (decompress_call cap s src_len).1

/-- The vector `decomp_buf_default` / `decomp_buf_hi` after decompression. -/
def decomp_buf (cap : Capability) (s : Strategy) (src_len : Nat) : Buf :=
  store (vector_init src_len) (decompress_call cap s src_len).2

/-- The integrity condition
`static_cast<size_t>(decomp_len) == src_len && std::equal(src_buf.begin(), src_buf.end(), decomp_buf.begin())`. -/
def verify (source decompressed : Buf) (src_len : Nat) (decomp_len : CInt) : Bool :=
  decide (static_cast_size_t decomp_len = src_len) && std_equal source decompressed

/-! ## Runs -/

/-- The way the process ends: `main` returns a code, or an exception leaves
`main` uncaught and the process is terminated abnormally. -/
inductive Outcome
  | returned (code : Int)
  | terminated
  deriving DecidableEq, Repr

/-- The observable events of a run, in program order. -/
inductive Event
  /-- Construction of `src_buf` with the given size. -/
  | alloc_src (n : Nat)
  /-- The call of the bound function with its argument and result. -/
  | bound (s : Strategy) (srcl : Int) (ret : Int)
  /-- Construction of the compressed buffer with the given size. -/
  | alloc_comp (s : Strategy) (n : Nat)
  /-- The call of the compression function: `srcl`, `dstl` and the result. -/
  | compress (s : Strategy) (srcl : Int) (dstl : Int) (ret : Int)
  /-- Construction of the decompressed buffer with the given size. -/
  | alloc_decomp (s : Strategy) (n : Nat)
  /-- The call of `lzav_decompress`: `srcl`, `dstl` and the result. -/
  | decompress (s : Strategy) (srcl : Int) (dstl : Int) (ret : Int)
  /-- Evaluation of the integrity condition with its value. -/
  | verify (s : Strategy) (ok : Bool)
  /-- A line written to `std::cout`. -/
  | cout (line : String)
  /-- A line written to `std::cerr`. -/
  | cerr (line : String)
  deriving DecidableEq, Repr

/-- A run of the harness. -/
structure Run where
  events : List Event
  outcome : Outcome

/-- One strategy section of `main`: its events, and how the process ended if
it ended inside the section. -/
structure Section where
  events : List Event
  exit : Option Outcome

/-! ### Diagnostics and report lines -/

/-- Diagnostic for a zero bound. -/
def msg_bound_zero : Strategy → String
  | .dflt => "错误: lzav_compress_bound 对非零源长度返回 0。"
  | .hi => "错误: lzav_compress_bound_hi 对非零源长度返回 0。"

/-- Diagnostic for a zero compression result. -/
def msg_comp_zero : Strategy → String
  | .dflt => "默认压缩错误! lzav_compress_default 返回 0。"
  | .hi => "压缩 (高比率) 错误! lzav_compress_hi 返回 0。"

/-- Diagnostic for a negative compression result. -/
def msg_comp_neg (s : Strategy) (comp_len : Int) : String :=
  match s with
  | .dflt => "默认压缩错误! lzav_compress_default 返回: " ++ toString comp_len
  | .hi => "压缩 (高比率) 错误! lzav_compress_hi 返回: " ++ toString comp_len

/-- Diagnostic for a negative decompression result. -/
def msg_decomp_neg (E : ErrorCodes) (s : Strategy) (decomp_len : Int) : String :=
  match s with
  | .dflt => "默认解压缩错误! 返回 " ++ toString decomp_len ++ " ("
      ++ getLzavErrorString E decomp_len ++ ")"
  | .hi => "解压缩 (高比率) 错误! 返回 " ++ toString decomp_len ++ " ("
      ++ getLzavErrorString E decomp_len ++ ")"

/-- The verdict line of a passed verification. -/
def msg_verify_pass : Strategy → String
  | .dflt => "数据验证 (默认): 通过"
  | .hi => "数据验证 (高比率): 通过"

/-- The diagnostic of a failed verification. -/
def msg_verify_fail : Strategy → String
  | .dflt => "数据验证 (默认): 失败! 解压缩数据与原始数据不匹配。"
  | .hi => "数据验证 (高比率): 失败! 解压缩数据 (高比率) 与原始数据不匹配。"

/-- Lines written before the bound call of a strategy. -/
def report_before_bound : Strategy → List Event
  | .dflt => []
  | .hi => [.cout "\n--- LZAV 更高比率压缩 (lzav_compress_hi) ---"]

/-- Lines written once the compression result has been accepted. -/
def report_compressed (s : Strategy) (comp_len : Int) : List Event :=
  match s with
  | .dflt => [.cout "\n--- LZAV 默认压缩 (lzav_compress_default) ---",
              .cout ("压缩数据长度: " ++ toString comp_len ++ " 字节")]
  | .hi => [.cout ("压缩数据 (高比率) 长度: " ++ toString comp_len ++ " 字节")]

/-- Line written once the decompression result has been accepted. -/
def report_decompressed (s : Strategy) (decomp_len : Int) : List Event :=
  match s with
  | .dflt => [.cout ("解压缩数据长度: " ++ toString decomp_len ++ " 字节")]
  | .hi => [.cout ("解压缩数据 (高比率) 长度: " ++ toString decomp_len ++ " 字节")]

/-! ### The conditions tested by `main` -/

/-- The condition `max_comp_len == 0 && src_len != 0` (lines 47 and 119). -/
def bound_zero (cap : Capability) (s : Strategy) (src_len : Nat) : Bool :=
  decide ((max_comp_len cap s src_len).val = 0) && decide (src_len ≠ 0)

/-- Whether the construction `std::vector<char> comp_buf(max_comp_len)` throws
(lines 51 and 123). -/
def comp_alloc_throws (cap : Capability) (s : Strategy) (src_len : Nat) : Bool :=
  vector_throws (static_cast_size_t (max_comp_len cap s src_len))

/-- The condition `comp_len == 0 && src_len != 0` (lines 63 and 135). -/
def comp_zero (cap : Capability) (s : Strategy) (src_len : Nat) : Bool :=
  decide ((comp_len cap s src_len).val = 0) && decide (src_len ≠ 0)

/-- The condition `comp_len < 0` (lines 66 and 138). -/
def comp_neg (cap : Capability) (s : Strategy) (src_len : Nat) : Bool :=
  decide ((comp_len cap s src_len).val < 0)

/-- The condition `decomp_len < 0` (lines 94 and 165). -/
def decomp_neg (cap : Capability) (s : Strategy) (src_len : Nat) : Bool :=
  decide ((decomp_len cap s src_len).val < 0)

/-- The integrity condition of a strategy (lines 107-108 and 178-179). -/
def verified (cap : Capability) (s : Strategy) (src_len : Nat) : Bool :=
  verify (src_buf src_len) (decomp_buf cap s src_len) src_len (decomp_len cap s src_len)

/-! ### The events of a strategy section, up to each of its steps -/

/-- Events up to and including the bound call. -/
def ev_bound (cap : Capability) (s : Strategy) (src_len : Nat) : List Event :=
  report_before_bound s
    ++ [Event.bound s (static_cast_int src_len).val (max_comp_len cap s src_len).val]

/-- Events up to and including the construction of the compressed buffer. -/
def ev_alloc_comp (cap : Capability) (s : Strategy) (src_len : Nat) : List Event :=
  ev_bound cap s src_len
    ++ [Event.alloc_comp s (static_cast_size_t (max_comp_len cap s src_len))]

/-- Events up to and including the compression call. -/
def ev_compress (cap : Capability) (s : Strategy) (src_len : Nat) : List Event :=
  ev_alloc_comp cap s src_len
    ++ [Event.compress s (static_cast_int src_len).val (max_comp_len cap s src_len).val
          (comp_len cap s src_len).val]

/-- Events up to and including the construction of the decompressed buffer. -/
def ev_alloc_decomp (cap : Capability) (s : Strategy) (src_len : Nat) : List Event :=
  ev_compress cap s src_len ++ report_compressed s (comp_len cap s src_len).val
    ++ [Event.alloc_decomp s src_len]

/-- Events up to and including the decompression call. -/
def ev_decompress (cap : Capability) (s : Strategy) (src_len : Nat) : List Event :=
  ev_alloc_decomp cap s src_len
    ++ [Event.decompress s (comp_len cap s src_len).val (static_cast_int src_len).val
          (decomp_len cap s src_len).val]

/-- Events up to and including the evaluation of the integrity condition. -/
def ev_verify (cap : Capability) (s : Strategy) (src_len : Nat) : List Event :=
  ev_decompress cap s src_len ++ report_decompressed s (decomp_len cap s src_len).val
    ++ [Event.verify s (verified cap s src_len)]

/-! ### The harness -/

/-- One strategy section of `main` (lines 46-113 for the default strategy,
lines 116-184 for the high-ratio strategy). -/
def run_strategy (E : ErrorCodes) (cap : Capability) (s : Strategy) (src_len : Nat) : Section :=
  if bound_zero cap s src_len then
    ⟨ev_bound cap s src_len ++ [.cerr (msg_bound_zero s)], some (.returned 1)⟩
  else if comp_alloc_throws cap s src_len then
    ⟨ev_alloc_comp cap s src_len, some .terminated⟩
  else if comp_zero cap s src_len then
    ⟨ev_compress cap s src_len ++ [.cerr (msg_comp_zero s)], some (.returned 1)⟩
  else if comp_neg cap s src_len then
    ⟨ev_compress cap s src_len ++ [.cerr (msg_comp_neg s (comp_len cap s src_len).val)],
      some (.returned 1)⟩
  else if vector_throws src_len then
    ⟨ev_alloc_decomp cap s src_len, some .terminated⟩
  else if decomp_neg cap s src_len then
    ⟨ev_decompress cap s src_len
        ++ [.cerr (msg_decomp_neg E s (decomp_len cap s src_len).val)], some (.returned 1)⟩
  else if verified cap s src_len then
    ⟨ev_verify cap s src_len ++ [.cout (msg_verify_pass s)], none⟩
  else
    ⟨ev_verify cap s src_len ++ [.cerr (msg_verify_fail s)], some (.returned 1)⟩

/-- Events before the first strategy section: the construction of `src_buf`
and the line reporting its length. -/
def ev_source (src_len : Nat) : List Event :=
  [Event.alloc_src src_len, Event.cout ("原始数据长度: " ++ toString src_len ++ " 字节")]

/-- The body of `main` for a given `src_len`. -/
def harness (E : ErrorCodes) (src_len : Nat) (cap : Capability) : Run :=
  if vector_throws src_len then
    ⟨[.alloc_src src_len], .terminated⟩
  else
    match (run_strategy E cap .dflt src_len).exit with
    | some o => ⟨ev_source src_len ++ (run_strategy E cap .dflt src_len).events, o⟩
    | none =>
      match (run_strategy E cap .hi src_len).exit with
      | some o =>
        ⟨ev_source src_len ++ (run_strategy E cap .dflt src_len).events
          ++ (run_strategy E cap .hi src_len).events, o⟩
      | none =>
        ⟨ev_source src_len ++ (run_strategy E cap .dflt src_len).events
          ++ (run_strategy E cap .hi src_len).events, .returned 0⟩

/-- The constant `src_len` of `main`. -/
def main_src_len : Nat := 10 * 1024 * 1024

/-- The program `main`. -/
def main (E : ErrorCodes) (cap : Capability) : Run := harness E main_src_len cap

/-! ## Vocabulary for the properties -/

/-- The section gets as far as calling the compression function. -/
def reaches_compress (cap : Capability) (s : Strategy) (n : Nat) : Prop :=
  bound_zero cap s n = false ∧ comp_alloc_throws cap s n = false

/-- The section gets as far as calling `lzav_decompress`. -/
def reaches_decompress (cap : Capability) (s : Strategy) (n : Nat) : Prop :=
  reaches_compress cap s n ∧ comp_zero cap s n = false ∧ comp_neg cap s n = false ∧
    vector_throws n = false

/-- The section gets as far as evaluating the integrity condition. -/
def reaches_verify (cap : Capability) (s : Strategy) (n : Nat) : Prop :=
  reaches_decompress cap s n ∧ decomp_neg cap s n = false

/-- The section runs to its end with a passed verification. -/
def passes (cap : Capability) (s : Strategy) (n : Nat) : Prop :=
  reaches_verify cap s n ∧ verified cap s n = true

/-- The section of a strategy is entered: `src_buf` was built and every
earlier section passed. -/
def entered (cap : Capability) (s : Strategy) (n : Nat) : Prop :=
  vector_throws n = false ∧ (s = .hi → passes cap .dflt n)

/-- Sample values `-1 … -7` for the error-code constants, for concrete runs. -/
def lzav_codes : ErrorCodes := ⟨-1, -2, -3, -4, -5, -6, -7⟩

/-- Each error-code constant with its name. -/
def ErrorCodes.named (E : ErrorCodes) : List (Int × String) :=
  [(E.LZAV_E_PARAMS, "LZAV_E_PARAMS"), (E.LZAV_E_SRCOOB, "LZAV_E_SRCOOB"),
   (E.LZAV_E_DSTOOB, "LZAV_E_DSTOOB"), (E.LZAV_E_REFOOB, "LZAV_E_REFOOB"),
   (E.LZAV_E_DSTLEN, "LZAV_E_DSTLEN"), (E.LZAV_E_UNKFMT, "LZAV_E_UNKFMT"),
   (E.LZAV_E_PTROVR, "LZAV_E_PTROVR")]

/-- The message of the `default:` branch. -/
def msg_unknown : String := "未知 LZAV 错误"

/-- Compression by copying: the source is stored unchanged when it fits the
capacity `dstl`, and the result is `0` otherwise. -/
def copy_compress (src : Buf) (srcl dstl : CInt) : CInt × Buf :=
  if srcl.val ≤ dstl.val then (srcl, src) else (⟨0, by decide⟩, [])

/-- A capability that stores the data unchanged: the bound is `srcl + 16`,
compression copies the source, decompression copies `dstl` bytes back. -/
def cap_copy : Capability where
  lzav_compress_bound := fun srcl => static_cast_int (srcl.val.toNat + 16)
  lzav_compress_bound_hi := fun srcl => static_cast_int (srcl.val.toNat + 16)
  lzav_compress_default := fun src _ srcl dstl => copy_compress src srcl dstl
  lzav_compress_hi := fun src _ srcl dstl => copy_compress src srcl dstl
  lzav_decompress := fun src _ _ dstl => (dstl, src.take dstl.val.toNat)

/-- A capability whose functions return fixed results whatever they are given:
the two bounds, the two compression results, and the decompression result,
with the bytes the decompressor writes. -/
def cap_const (bound_d bound_h comp_d comp_h decomp : CInt) (out : Buf) : Capability where
  lzav_compress_bound := fun _ => bound_d
  lzav_compress_bound_hi := fun _ => bound_h
  lzav_compress_default := fun _ _ _ _ => (comp_d, [])
  lzav_compress_hi := fun _ _ _ _ => (comp_h, [])
  lzav_decompress := fun _ _ _ _ => (decomp, out)

/-- A capability that reports success throughout but writes back zero bytes. -/
def cap_corrupt : Capability :=
  cap_const ⟨19, by decide⟩ ⟨19, by decide⟩ ⟨2, by decide⟩ ⟨2, by decide⟩ ⟨3, by decide⟩ [0, 0, 0]

/-- A capability whose default bound function returns `-1`. -/
def cap_neg_bound : Capability :=
  cap_const ⟨-1, by decide⟩ ⟨19, by decide⟩ ⟨2, by decide⟩ ⟨2, by decide⟩ ⟨3, by decide⟩ []

/-- A capability whose high-ratio bound function returns `0`. -/
def cap_zero_bound : Capability :=
  { cap_copy with lzav_compress_bound_hi := fun _ => ⟨0, by decide⟩ }

/-- A capability whose default compression function returns `-1`. -/
def cap_comp_err : Capability :=
  cap_const ⟨19, by decide⟩ ⟨19, by decide⟩ ⟨-1, by decide⟩ ⟨2, by decide⟩ ⟨3, by decide⟩ []

/-- A capability whose compression functions report `2` bytes although the
bound, and so the capacity they are given, is `1`. -/
def cap_overrun : Capability :=
  cap_const ⟨1, by decide⟩ ⟨1, by decide⟩ ⟨2, by decide⟩ ⟨2, by decide⟩ ⟨3, by decide⟩ []

/-- A capability whose decompression function returns `-5`. -/
def cap_decomp_err : Capability :=
  cap_const ⟨19, by decide⟩ ⟨19, by decide⟩ ⟨2, by decide⟩ ⟨2, by decide⟩ ⟨-5, by decide⟩ []

/-- A capability whose default bound function returns the smallest `int`. -/
def cap_min_bound : Capability :=
  cap_const ⟨-2147483648, by decide⟩ ⟨19, by decide⟩ ⟨2, by decide⟩ ⟨2, by decide⟩
    ⟨3, by decide⟩ []

/-- A capability all of whose functions return `0` and write nothing. -/
def cap_all_zero : Capability :=
  cap_const ⟨0, by decide⟩ ⟨0, by decide⟩ ⟨0, by decide⟩ ⟨0, by decide⟩ ⟨0, by decide⟩ []

/-- The four steps of a strategy run. -/
inductive Step
  | bound
  | compress
  | decompress
  | verify
  deriving DecidableEq, Repr

/-- The step an event is, for the events that are steps. -/
def Event.step? : Event → Option (Strategy × Step)
  | .bound s _ _ => some (s, .bound)
  | .compress s _ _ _ => some (s, .compress)
  | .decompress s _ _ _ => some (s, .decompress)
  | .verify s _ => some (s, .verify)
  | _ => none

/-- The steps of a run, in the order in which they were executed. -/
def Run.steps (r : Run) : List (Strategy × Step) := r.events.filterMap Event.step?

/-- The step sequence of a run in which nothing fails. -/
def schedule : List (Strategy × Step) :=
  [(.dflt, .bound), (.dflt, .compress), (.dflt, .decompress), (.dflt, .verify),
   (.hi, .bound), (.hi, .compress), (.hi, .decompress), (.hi, .verify)]

/-- Whether an event is a step that failed, in a run with the given `src_len`:
a non-positive bound for a non-empty source, a compression result that is
negative or is zero for a non-empty source, a negative decompression result,
a failed integrity condition. -/
def Event.failed (src_len : Nat) : Event → Bool
  | .bound _ _ ret => decide (ret ≤ 0 ∧ src_len ≠ 0)
  | .compress _ _ _ ret => decide (ret < 0 ∨ (ret = 0 ∧ src_len ≠ 0))
  | .decompress _ _ _ ret => decide (ret < 0)
  | .verify _ ok => !ok
  | _ => false

/-! ## Machine integers and buffers: basic facts -/

theorem static_cast_size_t_of_nonneg (x : CInt) (h : 0 ≤ x.val) :
    (static_cast_size_t x : Int) = x.val := by
  obtain ⟨v, hlo, hhi⟩ := x
  have e1 : INT_MIN = -2147483648 := rfl
  have e2 : INT_MAX = 2147483647 := rfl
  simp only [static_cast_size_t] at *
  omega

theorem static_cast_size_t_of_neg (x : CInt) (h : x.val < 0) :
    (static_cast_size_t x : Int) = x.val + 18446744073709551616 := by
  obtain ⟨v, hlo, hhi⟩ := x
  have e1 : INT_MIN = -2147483648 := rfl
  have e2 : INT_MAX = 2147483647 := rfl
  simp only [static_cast_size_t] at *
  omega

theorem vector_throws_cast_iff (x : CInt) :
    vector_throws (static_cast_size_t x) = true ↔ x.val < 0 := by
  have hr := x.property
  have e1 : INT_MIN = -2147483648 := rfl
  have e2 : INT_MAX = 2147483647 := rfl
  simp only [vector_throws, max_size, decide_eq_true_eq] at *
  constructor
  · intro h
    by_contra hn
    have := static_cast_size_t_of_nonneg x (by omega)
    omega
  · intro h
    have := static_cast_size_t_of_neg x h
    omega

theorem static_cast_int_of_le (n : Nat) (h : (n : Int) ≤ INT_MAX) :
    (static_cast_int n).val = n := by
  have e2 : INT_MAX = 2147483647 := rfl
  simp only [static_cast_int, wrap_int] at *
  split <;> omega

theorem store_length (dst w : Buf) : (store dst w).length = dst.length := by
  simp only [store, List.length_append, List.length_map, List.length_take, List.length_drop]
  omega

theorem decomp_buf_length (cap : Capability) (s : Strategy) (n : Nat) :
    (decomp_buf cap s n).length = n := by
  simp [decomp_buf, store_length, vector_init]

theorem std_equal_iff_eq (a b : Buf) (h : a.length = b.length) :
    std_equal a b = true ↔ a = b := by
  induction a generalizing b with
  | nil =>
    cases b with
    | nil => simp [std_equal]
    | cons y ys => simp at h
  | cons x xs ih =>
    cases b with
    | nil => simp at h
    | cons y ys =>
      have hl : xs.length = ys.length := by simpa using h
      simp [std_equal, ih ys hl]

theorem eq_iff_forall_getElem? (a b : Buf) (n : Nat) (ha : a.length = n) (hb : b.length = n) :
    a = b ↔ ∀ i, i < n → a[i]? = b[i]? := by
  constructor
  · rintro rfl i _
    rfl
  · intro h
    apply List.ext_getElem?
    intro i
    by_cases hi : i < n
    · exact h i hi
    · rw [List.getElem?_eq_none (by omega), List.getElem?_eq_none (by omega)]

theorem verify_iff (source decompressed : Buf) (n : Nat) (d : CInt)
    (hs : source.length = n) (hd : decompressed.length = n) (h0 : 0 ≤ d.val) :
    verify source decompressed n d = true ↔
      d.val = n ∧ ∀ i, i < n → source[i]? = decompressed[i]? := by
  have hc := static_cast_size_t_of_nonneg d h0
  rw [← eq_iff_forall_getElem? source decompressed n hs hd,
    ← std_equal_iff_eq source decompressed (hs.trans hd.symm)]
  simp only [verify, Bool.and_eq_true, decide_eq_true_eq]
  constructor
  · rintro ⟨h1, h2⟩
    exact ⟨by omega, h2⟩
  · rintro ⟨h1, h2⟩
    exact ⟨by omega, h2⟩

/-! ## The source pattern -/

theorem fill_pattern_succ (n : Nat) (b : Array Nat) :
    fill_pattern (n + 1) b = (fill_pattern n b).setD n (static_cast_char (65 + n % 26)) := by
  simp [fill_pattern, List.range_succ, List.foldl_append]

theorem fill_pattern_size (n : Nat) (b : Array Nat) : (fill_pattern n b).size = b.size := by
  induction n with
  | zero => simp [fill_pattern]
  | succ k ih => rw [fill_pattern_succ, Array.size_setD, ih]

theorem fill_pattern_getElem? (n : Nat) (b : Array Nat) (i : Nat) (hi : i < b.size) :
    (fill_pattern n b)[i]? = if i < n then some (static_cast_char (65 + i % 26)) else b[i]? := by
  induction n with
  | zero => simp [fill_pattern]
  | succ k ih =>
    rw [fill_pattern_succ]
    have hs : i < (fill_pattern k b).size := by rw [fill_pattern_size]; exact hi
    by_cases hik : i = k
    · subst hik
      rw [Array.getElem?_setD_eq _ hs]
      simp
    · have h1 : ((fill_pattern k b).setD k (static_cast_char (65 + k % 26)))[i]?
          = (fill_pattern k b)[i]? := by
        simp only [Array.setD]
        split
        · rw [Array.getElem?_set_ne]
          simpa using fun h => hik h.symm
        · rfl
      rw [h1, ih]
      by_cases h2 : i < k
      · have : i < k + 1 := by omega
        simp [h2, this]
      · have : ¬ i < k + 1 := by omega
        simp [h2, this]

theorem src_buf_length (n : Nat) : (src_buf n).length = n := by
  simp [src_buf, fill_pattern_size]

theorem src_buf_getElem? (n i : Nat) (hi : i < n) : (src_buf n)[i]? = some (65 + i % 26) := by
  unfold src_buf
  rw [← Array.getElem?_eq_getElem?_toList, fill_pattern_getElem? _ _ _ (by simpa using hi)]
  simp only [hi, if_true, static_cast_char]
  congr 1
  omega

theorem src_buf_unique (n : Nat) (b : Buf) (hl : b.length = n)
    (hb : ∀ i, i < n → b[i]? = some (65 + i % 26)) : b = src_buf n := by
  rw [eq_iff_forall_getElem? b (src_buf n) n hl (src_buf_length n)]
  intro i hi
  rw [hb i hi, src_buf_getElem? n i hi]

/-! ## The classification of error codes -/

theorem getLzavErrorString_of_not_mem (E : ErrorCodes) (c : Int) (h : c ∉ E.all) :
    getLzavErrorString E c = msg_unknown := by
  simp only [ErrorCodes.all, List.mem_cons, List.mem_singleton, not_or, List.mem_nil_iff,
    or_false] at h
  obtain ⟨h1, h2, h3, h4, h5, h6, h7⟩ := h
  simp [getLzavErrorString, msg_unknown, h1, h2, h3, h4, h5, h6, h7]

/-! ## Events and outcome of a run -/

theorem not_mem_before_bound (s : Strategy) (e : Event)
    (h : ∀ l, e ≠ .cout l) : e ∉ report_before_bound s := by
  cases s <;> simp [report_before_bound]
  exact h _

theorem not_mem_compressed (s : Strategy) (c : Int) (e : Event)
    (h : ∀ l, e ≠ .cout l) : e ∉ report_compressed s c := by
  cases s <;> simp [report_compressed]
  · exact ⟨h _, h _⟩
  · exact h _

theorem not_mem_decompressed (s : Strategy) (c : Int) (e : Event)
    (h : ∀ l, e ≠ .cout l) : e ∉ report_decompressed s c := by
  cases s <;> simp [report_decompressed] <;> exact h _

/-- Membership of an event other than a `cout` line in the events of a section. -/
theorem mem_run_strategy (E : ErrorCodes) (cap : Capability) (s : Strategy) (n : Nat)
    (e : Event) (h : ∀ l, e ≠ .cout l) :
    e ∈ (run_strategy E cap s n).events ↔
      e = .bound s (static_cast_int n).val (max_comp_len cap s n).val ∨
      (e = .cerr (msg_bound_zero s) ∧ bound_zero cap s n = true) ∨
      (e = .alloc_comp s (static_cast_size_t (max_comp_len cap s n)) ∧
        bound_zero cap s n = false) ∨
      (e = .compress s (static_cast_int n).val (max_comp_len cap s n).val
            (comp_len cap s n).val ∧ reaches_compress cap s n) ∨
      (e = .cerr (msg_comp_zero s) ∧ reaches_compress cap s n ∧ comp_zero cap s n = true) ∨
      (e = .cerr (msg_comp_neg s (comp_len cap s n).val) ∧ reaches_compress cap s n ∧
        comp_zero cap s n = false ∧ comp_neg cap s n = true) ∨
      (e = .alloc_decomp s n ∧ reaches_compress cap s n ∧
        comp_zero cap s n = false ∧ comp_neg cap s n = false) ∨
      (e = .decompress s (comp_len cap s n).val (static_cast_int n).val
            (decomp_len cap s n).val ∧ reaches_decompress cap s n) ∨
      (e = .cerr (msg_decomp_neg E s (decomp_len cap s n).val) ∧ reaches_decompress cap s n ∧
        decomp_neg cap s n = true) ∨
      (e = .verify s (verified cap s n) ∧ reaches_verify cap s n) ∨
      (e = .cerr (msg_verify_fail s) ∧ reaches_verify cap s n ∧ verified cap s n = false) := by
  have h1 := not_mem_before_bound s e h
  have h2 := not_mem_compressed s (comp_len cap s n).val e h
  have h3 := not_mem_decompressed s (decomp_len cap s n).val e h
  have h4 := h (msg_verify_pass s)
  unfold run_strategy reaches_verify reaches_decompress reaches_compress
  split_ifs <;>
    simp [ev_verify, ev_decompress, ev_alloc_decomp, ev_compress, ev_alloc_comp, ev_bound, *]

theorem run_strategy_exit_none_iff (E : ErrorCodes) (cap : Capability) (s : Strategy) (n : Nat) :
    (run_strategy E cap s n).exit = none ↔ passes cap s n := by
  unfold run_strategy passes reaches_verify reaches_decompress reaches_compress
  split_ifs <;> simp [*]

theorem run_strategy_exit_terminated_iff (E : ErrorCodes) (cap : Capability) (s : Strategy)
    (n : Nat) :
    (run_strategy E cap s n).exit = some .terminated ↔
      (bound_zero cap s n = false ∧ comp_alloc_throws cap s n = true) ∨
      (reaches_compress cap s n ∧ comp_zero cap s n = false ∧ comp_neg cap s n = false ∧
        vector_throws n = true) := by
  unfold run_strategy reaches_compress
  split_ifs <;> simp [*]

theorem run_strategy_exit_cases (E : ErrorCodes) (cap : Capability) (s : Strategy) (n : Nat) :
    (run_strategy E cap s n).exit = none ∨
    (run_strategy E cap s n).exit = some (.returned 1) ∨
    (run_strategy E cap s n).exit = some .terminated := by
  unfold run_strategy
  split_ifs <;> simp

/-- The outcome of a run in terms of its two sections. -/
theorem harness_outcome (E : ErrorCodes) (n : Nat) (cap : Capability) :
    (harness E n cap).outcome =
      if vector_throws n = true then .terminated
      else match (run_strategy E cap .dflt n).exit with
        | some o => o
        | none => match (run_strategy E cap .hi n).exit with
          | some o => o
          | none => .returned 0 := by
  unfold harness
  split_ifs
  · rfl
  · cases (run_strategy E cap .dflt n).exit with
    | some o => rfl
    | none =>
      cases (run_strategy E cap .hi n).exit with
      | some o => rfl
      | none => rfl

/-- The events of a run in terms of its two sections. -/
theorem harness_events (E : ErrorCodes) (n : Nat) (cap : Capability) :
    (harness E n cap).events =
      if vector_throws n = true then [.alloc_src n]
      else ev_source n ++ (run_strategy E cap .dflt n).events ++
        (if (run_strategy E cap .dflt n).exit = none then (run_strategy E cap .hi n).events
         else []) := by
  unfold harness
  split_ifs with h1 h2
  · rfl
  · rw [h2]
    cases (run_strategy E cap .hi n).exit with
    | some o => rfl
    | none => rfl
  · cases h3 : (run_strategy E cap .dflt n).exit with
    | some o => simp
    | none => exact absurd h3 h2

theorem harness_outcome_zero_iff (E : ErrorCodes) (n : Nat) (cap : Capability) :
    (harness E n cap).outcome = .returned 0 ↔
      vector_throws n = false ∧ passes cap .dflt n ∧ passes cap .hi n := by
  rw [harness_outcome, ← run_strategy_exit_none_iff E, ← run_strategy_exit_none_iff E]
  split_ifs with h0
  · simp [h0]
  · rcases run_strategy_exit_cases E cap .dflt n with h1 | h1 | h1 <;>
      rcases run_strategy_exit_cases E cap .hi n with h2 | h2 | h2 <;>
      simp [h0, h1, h2]

theorem harness_outcome_cases (E : ErrorCodes) (n : Nat) (cap : Capability) :
    (harness E n cap).outcome = .returned 0 ∨ (harness E n cap).outcome = .returned 1 ∨
    (harness E n cap).outcome = .terminated := by
  rw [harness_outcome]
  split_ifs with h0
  · simp
  · rcases run_strategy_exit_cases E cap .dflt n with h1 | h1 | h1 <;>
      rcases run_strategy_exit_cases E cap .hi n with h2 | h2 | h2 <;>
      simp [h1, h2]

/-- Membership in the events of a run, for an event of a strategy section
that is not a `cout` line. -/
theorem mem_harness (E : ErrorCodes) (n : Nat) (cap : Capability) (e : Event)
    (h : ∀ l, e ≠ .cout l) (h' : e ≠ .alloc_src n) :
    e ∈ (harness E n cap).events ↔
      vector_throws n = false ∧
        (e ∈ (run_strategy E cap .dflt n).events ∨
          (passes cap .dflt n ∧ e ∈ (run_strategy E cap .hi n).events)) := by
  rw [harness_events, ← run_strategy_exit_none_iff E]
  have h4 := h ("原始数据长度: " ++ toString n ++ " 字节")
  split_ifs <;> simp [ev_source, h4, h', *]

theorem mem_harness_bound (E : ErrorCodes) (n : Nat) (cap : Capability) (s : Strategy)
    (a b : Int) :
    Event.bound s a b ∈ (harness E n cap).events ↔
      entered cap s n ∧ a = (static_cast_int n).val ∧ b = (max_comp_len cap s n).val := by
  rw [mem_harness E n cap _ (by simp) (by simp), mem_run_strategy E cap _ n _ (by simp),
    mem_run_strategy E cap _ n _ (by simp)]
  cases s
  · simp [entered]
  · simp [entered]; tauto

theorem mem_harness_alloc_comp (E : ErrorCodes) (n : Nat) (cap : Capability) (s : Strategy)
    (k : Nat) :
    Event.alloc_comp s k ∈ (harness E n cap).events ↔
      entered cap s n ∧ k = static_cast_size_t (max_comp_len cap s n) ∧
        bound_zero cap s n = false := by
  rw [mem_harness E n cap _ (by simp) (by simp), mem_run_strategy E cap _ n _ (by simp),
    mem_run_strategy E cap _ n _ (by simp)]
  cases s
  · simp [entered]
  · simp [entered]; tauto

theorem mem_harness_compress (E : ErrorCodes) (n : Nat) (cap : Capability) (s : Strategy)
    (a b c : Int) :
    Event.compress s a b c ∈ (harness E n cap).events ↔
      entered cap s n ∧ reaches_compress cap s n ∧ a = (static_cast_int n).val ∧
        b = (max_comp_len cap s n).val ∧ c = (comp_len cap s n).val := by
  rw [mem_harness E n cap _ (by simp) (by simp), mem_run_strategy E cap _ n _ (by simp),
    mem_run_strategy E cap _ n _ (by simp)]
  cases s <;> simp [entered] <;> tauto

theorem mem_harness_alloc_decomp (E : ErrorCodes) (n : Nat) (cap : Capability) (s : Strategy)
    (k : Nat) :
    Event.alloc_decomp s k ∈ (harness E n cap).events ↔
      entered cap s n ∧ reaches_compress cap s n ∧ comp_zero cap s n = false ∧
        comp_neg cap s n = false ∧ k = n := by
  rw [mem_harness E n cap _ (by simp) (by simp), mem_run_strategy E cap _ n _ (by simp),
    mem_run_strategy E cap _ n _ (by simp)]
  cases s <;> simp [entered] <;> tauto

theorem mem_harness_decompress (E : ErrorCodes) (n : Nat) (cap : Capability) (s : Strategy)
    (a b c : Int) :
    Event.decompress s a b c ∈ (harness E n cap).events ↔
      entered cap s n ∧ reaches_decompress cap s n ∧ a = (comp_len cap s n).val ∧
        b = (static_cast_int n).val ∧ c = (decomp_len cap s n).val := by
  rw [mem_harness E n cap _ (by simp) (by simp), mem_run_strategy E cap _ n _ (by simp),
    mem_run_strategy E cap _ n _ (by simp)]
  cases s <;> simp [entered] <;> tauto

theorem mem_harness_verify (E : ErrorCodes) (n : Nat) (cap : Capability) (s : Strategy)
    (ok : Bool) :
    Event.verify s ok ∈ (harness E n cap).events ↔
      entered cap s n ∧ reaches_verify cap s n ∧ ok = verified cap s n := by
  rw [mem_harness E n cap _ (by simp) (by simp), mem_run_strategy E cap _ n _ (by simp),
    mem_run_strategy E cap _ n _ (by simp)]
  cases s <;> simp [entered] <;> tauto

theorem mem_harness_cerr (E : ErrorCodes) (n : Nat) (cap : Capability) (l : String) :
    Event.cerr l ∈ (harness E n cap).events ↔
      ∃ s, entered cap s n ∧
        ((l = msg_bound_zero s ∧ bound_zero cap s n = true) ∨
         (l = msg_comp_zero s ∧ reaches_compress cap s n ∧ comp_zero cap s n = true) ∨
         (l = msg_comp_neg s (comp_len cap s n).val ∧ reaches_compress cap s n ∧
            comp_zero cap s n = false ∧ comp_neg cap s n = true) ∨
         (l = msg_decomp_neg E s (decomp_len cap s n).val ∧ reaches_decompress cap s n ∧
            decomp_neg cap s n = true) ∨
         (l = msg_verify_fail s ∧ reaches_verify cap s n ∧ verified cap s n = false)) := by
  rw [mem_harness E n cap _ (by simp) (by simp), mem_run_strategy E cap _ n _ (by simp),
    mem_run_strategy E cap _ n _ (by simp)]
  simp only [entered, Event.cerr.injEq, reduceCtorEq, false_and, false_or, or_false]
  constructor
  · rintro ⟨h0, h | ⟨hp, h⟩⟩
    · exact ⟨.dflt, ⟨h0, by simp⟩, h⟩
    · exact ⟨.hi, ⟨h0, fun _ => hp⟩, h⟩
  · rintro ⟨s, ⟨h0, hp⟩, h⟩
    cases s
    · exact ⟨h0, Or.inl h⟩
    · exact ⟨h0, Or.inr ⟨hp rfl, h⟩⟩

theorem append_ne_of_head (a x b : String) (c d : Char) (ta tb : List Char)
    (ha : a.data = c :: ta) (hb : b.data = d :: tb) (h : c ≠ d) : a ++ x ≠ b := by
  intro he
  have := congrArg String.data he
  rw [String.data_append, ha, hb] at this
  simp at this
  exact h this.1

theorem mem_run_strategy_pass (E : ErrorCodes) (cap : Capability) (s s' : Strategy) (n : Nat) :
    Event.cout (msg_verify_pass s') ∈ (run_strategy E cap s n).events ↔
      s' = s ∧ passes cap s n := by
  have k1 : ∀ x : Int, "压缩数据长度: " ++ toString x ++ " 字节" ≠ msg_verify_pass s' := by
    intro x; rw [String.append_assoc]
    cases s' <;> exact append_ne_of_head _ _ _ '压' '数' _ _ rfl rfl (by decide)
  have k2 : ∀ x : Int, "压缩数据 (高比率) 长度: " ++ toString x ++ " 字节" ≠ msg_verify_pass s' := by
    intro x; rw [String.append_assoc]
    cases s' <;> exact append_ne_of_head _ _ _ '压' '数' _ _ rfl rfl (by decide)
  have k3 : ∀ x : Int, "解压缩数据长度: " ++ toString x ++ " 字节" ≠ msg_verify_pass s' := by
    intro x; rw [String.append_assoc]
    cases s' <;> exact append_ne_of_head _ _ _ '解' '数' _ _ rfl rfl (by decide)
  have k4 : ∀ x : Int, "解压缩数据 (高比率) 长度: " ++ toString x ++ " 字节" ≠ msg_verify_pass s' := by
    intro x; rw [String.append_assoc]
    cases s' <;> exact append_ne_of_head _ _ _ '解' '数' _ _ rfl rfl (by decide)
  have k5 : "\n--- LZAV 默认压缩 (lzav_compress_default) ---" ≠ msg_verify_pass s' := by
    cases s' <;> decide
  have k6 : "\n--- LZAV 更高比率压缩 (lzav_compress_hi) ---" ≠ msg_verify_pass s' := by
    cases s' <;> decide
  have k7 : msg_verify_pass s' = msg_verify_pass s ↔ s' = s := by
    cases s <;> cases s' <;> decide
  unfold run_strategy passes reaches_verify reaches_decompress reaches_compress
  cases s <;> split_ifs <;>
    simp [ev_verify, ev_decompress, ev_alloc_decomp, ev_compress, ev_alloc_comp, ev_bound,
      report_before_bound, report_compressed, report_decompressed, k7, Ne.symm (k1 _),
      Ne.symm (k2 _), Ne.symm (k3 _), Ne.symm (k4 _), Ne.symm k5, Ne.symm k6, *]

theorem mem_harness_pass (E : ErrorCodes) (n : Nat) (cap : Capability) (s : Strategy) :
    Event.cout (msg_verify_pass s) ∈ (harness E n cap).events ↔
      entered cap s n ∧ passes cap s n := by
  have k : "原始数据长度: " ++ toString n ++ " 字节" ≠ msg_verify_pass s := by
    rw [String.append_assoc]
    cases s <;> exact append_ne_of_head _ _ _ '原' '数' _ _ rfl rfl (by decide)
  rw [harness_events, ← run_strategy_exit_none_iff E]
  split_ifs with h0 h1
  · simp [entered, h0]
  · simp only [List.mem_append, ev_source, List.mem_cons, reduceCtorEq, Event.cout.injEq,
      Ne.symm k, List.mem_nil_iff, or_false, false_or, mem_run_strategy_pass, entered,
      run_strategy_exit_none_iff] at *
    cases s <;> simp [h0, h1]
  · simp only [List.mem_append, ev_source, List.mem_cons, reduceCtorEq, Event.cout.injEq,
      Ne.symm k, List.mem_nil_iff, or_false, false_or, mem_run_strategy_pass, entered,
      run_strategy_exit_none_iff] at *
    cases s <;> simp [h0, h1]

theorem run_strategy_exit_one_iff (E : ErrorCodes) (cap : Capability) (s : Strategy) (n : Nat) :
    (run_strategy E cap s n).exit = some (.returned 1) ↔
      bound_zero cap s n = true ∨
      (reaches_compress cap s n ∧ (comp_zero cap s n = true ∨ comp_neg cap s n = true)) ∨
      (reaches_decompress cap s n ∧ decomp_neg cap s n = true) ∨
      (reaches_verify cap s n ∧ verified cap s n = false) := by
  unfold run_strategy reaches_verify reaches_decompress reaches_compress
  split_ifs <;> simp [*]

theorem harness_outcome_of_exit (E : ErrorCodes) (n : Nat) (cap : Capability) (s : Strategy)
    (o : Outcome) (he : entered cap s n) (hx : (run_strategy E cap s n).exit = some o) :
    (harness E n cap).outcome = o := by
  rw [harness_outcome]
  obtain ⟨h0, hp⟩ := he
  cases s with
  | dflt => simp [h0, hx]
  | hi =>
    have := (run_strategy_exit_none_iff E cap .dflt n).mpr (hp rfl)
    simp [h0, hx, this]

theorem reaches_verify_nonneg (cap : Capability) (s : Strategy) (n : Nat)
    (h : reaches_verify cap s n) : 0 ≤ (decomp_len cap s n).val := by
  have := h.2
  simp only [decomp_neg, decide_eq_false_iff_not, not_lt] at this
  exact this

theorem verified_iff (cap : Capability) (s : Strategy) (n : Nat)
    (h : 0 ≤ (decomp_len cap s n).val) :
    verified cap s n = true ↔
      (decomp_len cap s n).val = n ∧ ∀ i, i < n → (src_buf n)[i]? = (decomp_buf cap s n)[i]? :=
  verify_iff _ _ n _ (src_buf_length n) (decomp_buf_length cap s n) h

theorem msg_verify_fail_ne (E : ErrorCodes) (s s' : Strategy) (x : Int) :
    msg_bound_zero s' ≠ msg_verify_fail s ∧ msg_comp_zero s' ≠ msg_verify_fail s ∧
    msg_comp_neg s' x ≠ msg_verify_fail s ∧ msg_decomp_neg E s' x ≠ msg_verify_fail s := by
  refine ⟨by cases s <;> cases s' <;> decide, by cases s <;> cases s' <;> decide, ?_, ?_⟩
  · cases s' <;> simp only [msg_comp_neg]
    · cases s <;> exact append_ne_of_head _ _ _ '默' '数' _ _ rfl rfl (by decide)
    · cases s <;> exact append_ne_of_head _ _ _ '压' '数' _ _ rfl rfl (by decide)
  · cases s' <;> simp only [msg_decomp_neg, String.append_assoc]
    · cases s <;> exact append_ne_of_head _ _ _ '默' '数' _ _ rfl rfl (by decide)
    · cases s <;> exact append_ne_of_head _ _ _ '解' '数' _ _ rfl rfl (by decide)

theorem mem_harness_verify_fail (E : ErrorCodes) (n : Nat) (cap : Capability) (s : Strategy) :
    Event.cerr (msg_verify_fail s) ∈ (harness E n cap).events ↔
      entered cap s n ∧ reaches_verify cap s n ∧ verified cap s n = false := by
  rw [mem_harness_cerr]
  constructor
  · rintro ⟨s', hent, h⟩
    have hne := fun x => msg_verify_fail_ne E s s' x
    rcases h with ⟨h, -⟩ | ⟨h, -⟩ | ⟨h, -⟩ | ⟨h, -⟩ | ⟨h, hr, hv⟩
    · exact absurd h.symm (hne 0).1
    · exact absurd h.symm (hne 0).2.1
    · exact absurd h.symm (hne _).2.2.1
    · exact absurd h.symm (hne _).2.2.2
    · have : s = s' := by
        revert h; cases s <;> cases s' <;> decide
      subst this
      exact ⟨hent, hr, hv⟩
  · rintro ⟨hent, hr, hv⟩
    exact ⟨s, hent, Or.inr (Or.inr (Or.inr (Or.inr ⟨rfl, hr, hv⟩)))⟩

theorem bound_zero_iff (cap : Capability) (s : Strategy) (n : Nat) :
    bound_zero cap s n = true ↔ (max_comp_len cap s n).val = 0 ∧ n ≠ 0 := by
  simp [bound_zero]

theorem comp_alloc_throws_iff (cap : Capability) (s : Strategy) (n : Nat) :
    comp_alloc_throws cap s n = true ↔ (max_comp_len cap s n).val < 0 :=
  vector_throws_cast_iff _

theorem comp_zero_iff (cap : Capability) (s : Strategy) (n : Nat) :
    comp_zero cap s n = true ↔ (comp_len cap s n).val = 0 ∧ n ≠ 0 := by
  simp [comp_zero]

theorem comp_neg_iff (cap : Capability) (s : Strategy) (n : Nat) :
    comp_neg cap s n = true ↔ (comp_len cap s n).val < 0 := by
  simp [comp_neg]

theorem decomp_neg_iff (cap : Capability) (s : Strategy) (n : Nat) :
    decomp_neg cap s n = true ↔ (decomp_len cap s n).val < 0 := by
  simp [decomp_neg]

theorem reaches_compress_iff (cap : Capability) (s : Strategy) (n : Nat) :
    reaches_compress cap s n ↔
      ¬ ((max_comp_len cap s n).val = 0 ∧ n ≠ 0) ∧ 0 ≤ (max_comp_len cap s n).val := by
  unfold reaches_compress
  rw [← Bool.not_eq_true, ← Bool.not_eq_true, bound_zero_iff, comp_alloc_throws_iff, not_lt]

theorem reaches_decompress_iff (cap : Capability) (s : Strategy) (n : Nat) :
    reaches_decompress cap s n ↔
      reaches_compress cap s n ∧ ¬ ((comp_len cap s n).val = 0 ∧ n ≠ 0) ∧
        0 ≤ (comp_len cap s n).val ∧ vector_throws n = false := by
  unfold reaches_decompress
  rw [← Bool.not_eq_true (comp_zero cap s n), ← Bool.not_eq_true (comp_neg cap s n),
    comp_zero_iff, comp_neg_iff, not_lt]

theorem reaches_verify_iff (cap : Capability) (s : Strategy) (n : Nat) :
    reaches_verify cap s n ↔ reaches_decompress cap s n ∧ 0 ≤ (decomp_len cap s n).val := by
  unfold reaches_verify
  rw [← Bool.not_eq_true, decomp_neg_iff, not_lt]

theorem verified_iff_eq (cap : Capability) (s : Strategy) (n : Nat)
    (h : 0 ≤ (decomp_len cap s n).val) :
    verified cap s n = true ↔
      (decomp_len cap s n).val = n ∧ decomp_buf cap s n = src_buf n := by
  rw [verified_iff cap s n h,
    ← eq_iff_forall_getElem? (src_buf n) (decomp_buf cap s n) n (src_buf_length n)
      (decomp_buf_length cap s n)]
  exact and_congr_right fun _ => eq_comm

/-- A section of a run over a non-empty source that can be allocated passes
exactly when bound and compression result are positive, the decompressed
length is the source length and the decompressed bytes are the source bytes. -/
theorem passes_iff (cap : Capability) (s : Strategy) (n : Nat) (h0 : vector_throws n = false)
    (hn : n ≠ 0) :
    passes cap s n ↔
      0 < (max_comp_len cap s n).val ∧ 0 < (comp_len cap s n).val ∧
        (decomp_len cap s n).val = n ∧ decomp_buf cap s n = src_buf n := by
  unfold passes
  constructor
  · rintro ⟨hr, hv⟩
    have hd := reaches_verify_nonneg cap s n hr
    rw [verified_iff_eq cap s n hd] at hv
    rw [reaches_verify_iff, reaches_decompress_iff, reaches_compress_iff] at hr
    obtain ⟨⟨⟨hb1, hb2⟩, hc1, hc2, -⟩, -⟩ := hr
    refine ⟨?_, ?_, hv⟩
    · rcases hb2.lt_or_eq with h | h
      · exact h
      · exact absurd ⟨h.symm, hn⟩ hb1
    · rcases hc2.lt_or_eq with h | h
      · exact h
      · exact absurd ⟨h.symm, hn⟩ hc1
  · rintro ⟨hb, hc, hd, he⟩
    have hd0 : 0 ≤ (decomp_len cap s n).val := by rw [hd]; exact Int.ofNat_nonneg n
    refine ⟨?_, (verified_iff_eq cap s n hd0).mpr ⟨hd, he⟩⟩
    rw [reaches_verify_iff, reaches_decompress_iff, reaches_compress_iff]
    exact ⟨⟨⟨fun h => by omega, by omega⟩, fun h => by omega, by omega, h0⟩, hd0⟩

theorem harness_outcome_terminated (E : ErrorCodes) (n : Nat) (cap : Capability)
    (h0 : vector_throws n = false) (h : (harness E n cap).outcome = .terminated) :
    ∃ s, entered cap s n ∧ (max_comp_len cap s n).val < 0 := by
  rw [harness_outcome] at h
  simp only [h0, Bool.false_eq_true, if_false] at h
  have key : ∀ s, (run_strategy E cap s n).exit = some .terminated →
      (max_comp_len cap s n).val < 0 := by
    intro s hs
    rw [run_strategy_exit_terminated_iff] at hs
    rcases hs with ⟨-, h2⟩ | ⟨-, -, -, h2⟩
    · exact (comp_alloc_throws_iff cap s n).mp h2
    · rw [h0] at h2; exact absurd h2 (by simp)
  rcases run_strategy_exit_cases E cap .dflt n with h1 | h1 | h1
  · rcases run_strategy_exit_cases E cap .hi n with h2 | h2 | h2
    · simp [h1, h2] at h
    · simp [h1, h2] at h
    · exact ⟨.hi, ⟨h0, fun _ => (run_strategy_exit_none_iff E cap .dflt n).mp h1⟩, key _ h2⟩
  · simp [h1] at h
  · exact ⟨.dflt, ⟨h0, by simp⟩, key _ h1⟩

theorem main_src_len_facts :
    vector_throws main_src_len = false ∧ main_src_len ≠ 0 ∧
    (static_cast_int main_src_len).val = 10485760 ∧ main_src_len = 10485760 := by
  decide

theorem harness_outcome_one_of_bound (E : ErrorCodes) (n : Nat) (cap : Capability)
    (s : Strategy) (a : Int) (hn : n ≠ 0)
    (h : Event.bound s a 0 ∈ (harness E n cap).events) :
    (harness E n cap).outcome = .returned 1 := by
  rw [mem_harness_bound] at h
  obtain ⟨hent, -, hb⟩ := h
  apply harness_outcome_of_exit E n cap s _ hent
  rw [run_strategy_exit_one_iff]
  exact Or.inl ((bound_zero_iff cap s n).mpr ⟨hb.symm, hn⟩)

theorem harness_outcome_one_of_compress (E : ErrorCodes) (n : Nat) (cap : Capability)
    (s : Strategy) (a b c : Int)
    (h : Event.compress s a b c ∈ (harness E n cap).events)
    (hc : c < 0 ∨ (c = 0 ∧ n ≠ 0)) :
    (harness E n cap).outcome = .returned 1 := by
  rw [mem_harness_compress] at h
  obtain ⟨hent, hr, -, -, rfl⟩ := h
  apply harness_outcome_of_exit E n cap s _ hent
  rw [run_strategy_exit_one_iff]
  refine Or.inr (Or.inl ⟨hr, ?_⟩)
  rcases hc with hc | hc
  · exact Or.inr ((comp_neg_iff cap s n).mpr hc)
  · exact Or.inl ((comp_zero_iff cap s n).mpr hc)

theorem harness_outcome_one_of_decompress (E : ErrorCodes) (n : Nat) (cap : Capability)
    (s : Strategy) (a b c : Int)
    (h : Event.decompress s a b c ∈ (harness E n cap).events) (hc : c < 0) :
    (harness E n cap).outcome = .returned 1 := by
  rw [mem_harness_decompress] at h
  obtain ⟨hent, hr, -, -, rfl⟩ := h
  apply harness_outcome_of_exit E n cap s _ hent
  rw [run_strategy_exit_one_iff]
  exact Or.inr (Or.inr (Or.inl ⟨hr, (decomp_neg_iff cap s n).mpr hc⟩))

theorem harness_outcome_one_of_verify (E : ErrorCodes) (n : Nat) (cap : Capability)
    (s : Strategy) (h : Event.verify s false ∈ (harness E n cap).events) :
    (harness E n cap).outcome = .returned 1 := by
  rw [mem_harness_verify] at h
  obtain ⟨hent, hr, hv⟩ := h
  apply harness_outcome_of_exit E n cap s _ hent
  rw [run_strategy_exit_one_iff]
  exact Or.inr (Or.inr (Or.inr ⟨hr, hv.symm⟩))

theorem mem_harness_verify_true (E : ErrorCodes) (n : Nat) (cap : Capability) (s : Strategy) :
    Event.verify s true ∈ (harness E n cap).events ↔ entered cap s n ∧ passes cap s n := by
  rw [mem_harness_verify]
  unfold passes
  constructor
  · rintro ⟨h1, h2, h3⟩
    exact ⟨h1, h2, h3.symm⟩
  · rintro ⟨h1, h2, h3⟩
    exact ⟨h1, h2, h3.symm⟩

theorem harness_outcome_zero_iff_verify (E : ErrorCodes) (n : Nat) (cap : Capability) :
    (harness E n cap).outcome = .returned 0 ↔
      Event.verify .dflt true ∈ (harness E n cap).events ∧
      Event.verify .hi true ∈ (harness E n cap).events := by
  rw [harness_outcome_zero_iff, mem_harness_verify_true, mem_harness_verify_true]
  unfold entered
  constructor
  · rintro ⟨h0, h1, h2⟩
    exact ⟨⟨⟨h0, by simp⟩, h1⟩, ⟨h0, fun _ => h1⟩, h2⟩
  · rintro ⟨⟨⟨h0, -⟩, h1⟩, -, h2⟩
    exact ⟨h0, h1, h2⟩

theorem harness_events_of_exit (E : ErrorCodes) (n : Nat) (cap : Capability) (s : Strategy)
    (o : Outcome) (he : entered cap s n) (hx : (run_strategy E cap s n).exit = some o) :
    ∃ pre, (harness E n cap).events = pre ++ (run_strategy E cap s n).events := by
  rw [harness_events]
  obtain ⟨h0, hp⟩ := he
  cases s with
  | dflt => exact ⟨ev_source n, by simp [h0, hx]⟩
  | hi =>
    have := (run_strategy_exit_none_iff E cap .dflt n).mpr (hp rfl)
    exact ⟨ev_source n ++ (run_strategy E cap .dflt n).events, by simp [h0, this]⟩

theorem run_strategy_of_bound_zero (E : ErrorCodes) (cap : Capability) (s : Strategy) (n : Nat)
    (h : bound_zero cap s n = true) :
    run_strategy E cap s n =
      ⟨ev_bound cap s n ++ [.cerr (msg_bound_zero s)], some (.returned 1)⟩ := by
  simp [run_strategy, h]

theorem run_strategy_of_alloc_throws (E : ErrorCodes) (cap : Capability) (s : Strategy) (n : Nat)
    (h1 : bound_zero cap s n = false) (h2 : comp_alloc_throws cap s n = true) :
    run_strategy E cap s n = ⟨ev_alloc_comp cap s n, some .terminated⟩ := by
  simp [run_strategy, h1, h2]

theorem comp_rejected_iff (cap : Capability) (s : Strategy) (n : Nat) :
    (comp_zero cap s n = true ∨ comp_neg cap s n = true) ↔
      ((comp_len cap s n).val < 0 ∨ ((comp_len cap s n).val = 0 ∧ n ≠ 0)) := by
  rw [comp_zero_iff, comp_neg_iff, or_comm]

theorem vector_throws_zero : vector_throws 0 = false := by decide

/-- A section of a run over an empty source passes exactly when bound and
compression result are non-negative and the decompressed length is zero. -/
theorem passes_zero_iff (cap : Capability) (s : Strategy) :
    passes cap s 0 ↔
      0 ≤ (max_comp_len cap s 0).val ∧ 0 ≤ (comp_len cap s 0).val ∧
        (decomp_len cap s 0).val = 0 := by
  have hbuf : decomp_buf cap s 0 = src_buf 0 := by
    have h1 := decomp_buf_length cap s 0
    have h2 := src_buf_length 0
    rw [List.length_eq_zero] at h1 h2
    rw [h1, h2]
  unfold passes
  constructor
  · rintro ⟨hr, hv⟩
    have hd := reaches_verify_nonneg cap s 0 hr
    rw [verified_iff_eq cap s 0 hd] at hv
    rw [reaches_verify_iff, reaches_decompress_iff, reaches_compress_iff] at hr
    obtain ⟨⟨⟨-, hb2⟩, -, hc2, -⟩, -⟩ := hr
    exact ⟨hb2, hc2, by simpa using hv.1⟩
  · rintro ⟨hb, hc, hd⟩
    have hd0 : 0 ≤ (decomp_len cap s 0).val := by rw [hd]
    refine ⟨?_, (verified_iff_eq cap s 0 hd0).mpr ⟨by simpa using hd, hbuf⟩⟩
    rw [reaches_verify_iff, reaches_decompress_iff, reaches_compress_iff]
    exact ⟨⟨⟨fun h => h.2 rfl, hb⟩, fun h => h.2 rfl, hc, vector_throws_zero⟩, hd0⟩

theorem data_append_mid (a b c : String) : b.data <:+: (a ++ b ++ c).data := by
  rw [String.data_append, String.data_append]
  exact ⟨a.data, c.data, rfl⟩

theorem msg_comp_neg_contains (s : Strategy) (r : Int) :
    (toString r).data <:+: (msg_comp_neg s r).data := by
  cases s <;> simp only [msg_comp_neg]
  · have := data_append_mid "默认压缩错误! lzav_compress_default 返回: " (toString r) ""
    simpa using this
  · have := data_append_mid "压缩 (高比率) 错误! lzav_compress_hi 返回: " (toString r) ""
    simpa using this

theorem msg_decomp_neg_contains (E : ErrorCodes) (s : Strategy) (r : Int) :
    (toString r).data <:+: (msg_decomp_neg E s r).data ∧
    (getLzavErrorString E r).data <:+: (msg_decomp_neg E s r).data := by
  cases s <;> simp only [msg_decomp_neg]
  · constructor
    · have := data_append_mid "默认解压缩错误! 返回 " (toString r)
        (" (" ++ getLzavErrorString E r ++ ")")
      simpa [String.append_assoc] using this
    · exact data_append_mid _ _ _
  · constructor
    · have := data_append_mid "解压缩 (高比率) 错误! 返回 " (toString r)
        (" (" ++ getLzavErrorString E r ++ ")")
      simpa [String.append_assoc] using this
    · exact data_append_mid _ _ _

theorem filterMap_step_before_bound (s : Strategy) :
    (report_before_bound s).filterMap Event.step? = [] := by
  cases s <;> rfl

theorem filterMap_step_compressed (s : Strategy) (c : Int) :
    (report_compressed s c).filterMap Event.step? = [] := by
  cases s <;> rfl

theorem filterMap_step_decompressed (s : Strategy) (c : Int) :
    (report_decompressed s c).filterMap Event.step? = [] := by
  cases s <;> rfl

/-- The steps executed by one strategy section. -/
theorem steps_run_strategy (E : ErrorCodes) (cap : Capability) (s : Strategy) (n : Nat) :
    (run_strategy E cap s n).events.filterMap Event.step? =
      if bound_zero cap s n = true ∨ comp_alloc_throws cap s n = true then [(s, .bound)]
      else if comp_zero cap s n = true ∨ comp_neg cap s n = true ∨ vector_throws n = true then
        [(s, .bound), (s, .compress)]
      else if decomp_neg cap s n = true then [(s, .bound), (s, .compress), (s, .decompress)]
      else [(s, .bound), (s, .compress), (s, .decompress), (s, .verify)] := by
  unfold run_strategy
  split_ifs <;>
    simp_all [ev_verify, ev_decompress, ev_alloc_decomp, ev_compress, ev_alloc_comp, ev_bound,
      List.filterMap_append, filterMap_step_before_bound, filterMap_step_compressed,
      filterMap_step_decompressed, Event.step?]

/-- The steps executed by a run. -/
theorem harness_steps (E : ErrorCodes) (n : Nat) (cap : Capability) :
    (harness E n cap).steps =
      if vector_throws n = true then []
      else (run_strategy E cap .dflt n).events.filterMap Event.step? ++
        (if (run_strategy E cap .dflt n).exit = none then
          (run_strategy E cap .hi n).events.filterMap Event.step?
         else []) := by
  unfold Run.steps
  rw [harness_events]
  split_ifs <;> simp [ev_source, Event.step?, List.filterMap_append]

theorem steps_of_passes (E : ErrorCodes) (cap : Capability) (s : Strategy) (n : Nat)
    (h : passes cap s n) :
    (run_strategy E cap s n).events.filterMap Event.step? =
      [(s, .bound), (s, .compress), (s, .decompress), (s, .verify)] := by
  obtain ⟨⟨⟨⟨h1, h2⟩, h3, h4, h5⟩, h6⟩, -⟩ := h
  rw [steps_run_strategy]
  simp [h1, h2, h3, h4, h5, h6]

/-- The steps of a run whose section `s` is entered and does not pass: the
steps of the earlier section, all four, followed by the steps of `s`. -/
theorem harness_steps_of_exit (E : ErrorCodes) (n : Nat) (cap : Capability) (s : Strategy)
    (o : Outcome) (he : entered cap s n) (hx : (run_strategy E cap s n).exit = some o) :
    (harness E n cap).steps =
      (match s with
        | .dflt => []
        | .hi => [(.dflt, .bound), (.dflt, .compress), (.dflt, .decompress), (.dflt, .verify)])
      ++ (run_strategy E cap s n).events.filterMap Event.step? := by
  rw [harness_steps]
  obtain ⟨h0, hp⟩ := he
  cases s with
  | dflt => simp [h0, hx]
  | hi =>
    have hp' := hp rfl
    have := (run_strategy_exit_none_iff E cap .dflt n).mpr hp'
    simp [h0, this, steps_of_passes E cap .dflt n hp']

/-- The steps of a run are an initial part of the schedule. -/
theorem harness_steps_initial (E : ErrorCodes) (n : Nat) (cap : Capability) :
    (harness E n cap).steps <+: schedule := by
  rw [harness_steps, steps_run_strategy, steps_run_strategy]
  by_cases hp : passes cap .dflt n
  · have hx := (run_strategy_exit_none_iff E cap .dflt n).mpr hp
    obtain ⟨⟨⟨⟨h1, h2⟩, h3, h4, h5⟩, h6⟩, -⟩ := hp
    simp only [hx, h1, h2, h3, h4, h5, h6, if_true, Bool.false_eq_true, or_self, if_false]
    split_ifs <;> decide
  · have hx : ¬ (run_strategy E cap .dflt n).exit = none := by
      rw [run_strategy_exit_none_iff]; exact hp
    simp only [hx, if_false, List.append_nil]
    split_ifs <;> decide

/-- A failed step belongs to a section that was entered and where the run
ended; it is the last step of that section. -/
theorem failed_step_section (E : ErrorCodes) (n : Nat) (cap : Capability) (e : Event)
    (hmem : e ∈ (harness E n cap).events) (hf : e.failed n = true) :
    ∃ s st o, e.step? = some (s, st) ∧ entered cap s n ∧
      (run_strategy E cap s n).exit = some o ∧ (o = .returned 1 ∨ o = .terminated) ∧
      ((run_strategy E cap s n).events.filterMap Event.step?).getLast? = some (s, st) := by
  cases e with
  | bound s a b =>
    rw [mem_harness_bound] at hmem
    obtain ⟨hent, -, rfl⟩ := hmem
    simp only [Event.failed, decide_eq_true_eq] at hf
    rcases hf.1.lt_or_eq with hlt | heq
    · have hz : bound_zero cap s n = false := by
        rw [← Bool.not_eq_true, bound_zero_iff]
        intro h; omega
      have ht := (comp_alloc_throws_iff cap s n).mpr hlt
      refine ⟨s, .bound, .terminated, rfl, hent, ?_, Or.inr rfl, ?_⟩
      · rw [run_strategy_of_alloc_throws E cap s n hz ht]
      · rw [steps_run_strategy]; simp [ht]
    · have hz := (bound_zero_iff cap s n).mpr ⟨heq, hf.2⟩
      refine ⟨s, .bound, .returned 1, rfl, hent, ?_, Or.inl rfl, ?_⟩
      · rw [run_strategy_of_bound_zero E cap s n hz]
      · rw [steps_run_strategy]; simp [hz]
  | compress s a b c =>
    rw [mem_harness_compress] at hmem
    obtain ⟨hent, hrc, -, -, rfl⟩ := hmem
    simp only [Event.failed, decide_eq_true_eq] at hf
    have hc := (comp_rejected_iff cap s n).mpr hf
    refine ⟨s, .compress, .returned 1, rfl, hent, ?_, Or.inl rfl, ?_⟩
    · rw [run_strategy_exit_one_iff]
      exact Or.inr (Or.inl ⟨hrc, hc⟩)
    · rw [steps_run_strategy]
      rcases hc with hc | hc <;> simp [hrc.1, hrc.2, hc]
  | decompress s a b c =>
    rw [mem_harness_decompress] at hmem
    obtain ⟨hent, hrd, -, -, rfl⟩ := hmem
    simp only [Event.failed, decide_eq_true_eq] at hf
    have hd := (decomp_neg_iff cap s n).mpr hf
    refine ⟨s, .decompress, .returned 1, rfl, hent, ?_, Or.inl rfl, ?_⟩
    · rw [run_strategy_exit_one_iff]
      exact Or.inr (Or.inr (Or.inl ⟨hrd, hd⟩))
    · obtain ⟨⟨h1, h2⟩, h3, h4, h5⟩ := hrd
      rw [steps_run_strategy]
      simp [h1, h2, h3, h4, h5, hd]
  | verify s ok =>
    rw [mem_harness_verify] at hmem
    obtain ⟨hent, hrv, rfl⟩ := hmem
    simp only [Event.failed, Bool.not_eq_true'] at hf
    refine ⟨s, .verify, .returned 1, rfl, hent, ?_, Or.inl rfl, ?_⟩
    · rw [run_strategy_exit_one_iff]
      exact Or.inr (Or.inr (Or.inr ⟨hrv, hf⟩))
    · obtain ⟨⟨⟨h1, h2⟩, h3, h4, h5⟩, h6⟩ := hrv
      rw [steps_run_strategy]
      simp [h1, h2, h3, h4, h5, h6]
  | alloc_src k => simp [Event.failed] at hf
  | alloc_comp s k => simp [Event.failed] at hf
  | alloc_decomp s k => simp [Event.failed] at hf
  | cout l => simp [Event.failed] at hf
  | cerr l => simp [Event.failed] at hf

theorem not_entered_hi (E : ErrorCodes) (n : Nat) (cap : Capability) (o : Outcome)
    (hx : (run_strategy E cap .dflt n).exit = some o) : ¬ entered cap .hi n := by
  rintro ⟨-, hp⟩
  have := (run_strategy_exit_none_iff E cap .dflt n).mpr (hp rfl)
  rw [this] at hx
  exact Option.noConfusion hx

theorem src_buf_eq_map (n : Nat) :
    src_buf n = (List.range n).map (fun i => 65 + i % 26) := by
  symm
  apply src_buf_unique
  · simp
  · intro i hi
    simp [List.getElem?_map, List.getElem?_range hi]

theorem map_static_cast_char_src_buf (n : Nat) :
    (src_buf n).map static_cast_char = src_buf n := by
  rw [src_buf_eq_map, List.map_map]
  apply List.map_congr_left
  intro i _
  simp only [Function.comp, static_cast_char]
  omega

theorem store_src_buf (n k : Nat) :
    store (vector_init (n + k)) (src_buf n) = src_buf n ++ List.replicate k 0 := by
  have hl := src_buf_length n
  simp only [store, vector_init, List.length_replicate]
  rw [List.take_of_length_le (by omega), map_static_cast_char_src_buf, hl]
  simp

/-- The copying capability passes every section of a run over a non-empty
source whose bound fits an `int`. -/
theorem cap_copy_passes (s : Strategy) (n : Nat) (hn : n ≠ 0) (hle : n + 16 ≤ 2147483647) :
    passes cap_copy s n := by
  have h0 : vector_throws n = false := by
    simp only [vector_throws, max_size, decide_eq_false_iff_not]
    omega
  have hc1 : (static_cast_int n).val = n :=
    static_cast_int_of_le n (by simp only [INT_MAX]; omega)
  have hm : (max_comp_len cap_copy s n).val = (n + 16 : Nat) := by
    have : max_comp_len cap_copy s n = static_cast_int ((static_cast_int n).val.toNat + 16) := by
      cases s <;> rfl
    rw [this, hc1, Int.toNat_ofNat]
    exact static_cast_int_of_le _ (by simp only [INT_MAX]; omega)
  have hinit : comp_buf_init cap_copy s n = vector_init (n + 16) := by
    have := static_cast_size_t_of_nonneg (max_comp_len cap_copy s n) (by rw [hm]; omega)
    unfold comp_buf_init
    congr 1
    omega
  have hcall : compress_call cap_copy s n = (static_cast_int n, src_buf n) := by
    have : compress_call cap_copy s n
        = copy_compress (src_buf n) (static_cast_int n) (max_comp_len cap_copy s n) := by
      cases s <;> rfl
    rw [this, copy_compress, if_pos (by rw [hc1, hm]; omega)]
  have hcb : comp_buf cap_copy s n = src_buf n ++ List.replicate 16 0 := by
    unfold comp_buf
    rw [hinit, hcall, store_src_buf]
  have hdcall : decompress_call cap_copy s n = (static_cast_int n, src_buf n) := by
    have : decompress_call cap_copy s n
        = (static_cast_int n, (comp_buf cap_copy s n).take (static_cast_int n).val.toNat) := rfl
    rw [this, hcb, hc1, Int.toNat_ofNat, List.take_left' (src_buf_length n)]
  rw [passes_iff cap_copy s n h0 hn]
  refine ⟨by rw [hm]; omega, ?_, ?_, ?_⟩
  · unfold comp_len
    rw [hcall, hc1]
    omega
  · unfold decomp_len
    rw [hdcall, hc1]
  · unfold decomp_buf
    have := store_src_buf n 0
    rw [hdcall]
    simpa using this

/-- A negative bound ends the run in the construction of the compressed
buffer: the process is terminated and `main` returns no code. -/
theorem harness_outcome_terminated_of_bound (E : ErrorCodes) (n : Nat) (cap : Capability)
    (s : Strategy) (a b : Int) (h : Event.bound s a b ∈ (harness E n cap).events)
    (hb : b < 0) : (harness E n cap).outcome = .terminated := by
  rw [mem_harness_bound] at h
  obtain ⟨hent, -, rfl⟩ := h
  have hz : bound_zero cap s n = false := by
    rw [← Bool.not_eq_true, bound_zero_iff]
    intro h
    omega
  have ht := (comp_alloc_throws_iff cap s n).mpr hb
  apply harness_outcome_of_exit E n cap s _ hent
  rw [run_strategy_of_alloc_throws E cap s n hz ht]

/-! ## Properties of the harness -/

/-- C8. The source buffer of `main` has exactly 10 * 1024 * 1024 = 10485760
bytes and is the cyclic `'A'..'Z'` pattern: the byte at every index
`i < 10485760` is `'A' + (i mod 26)`, so every byte lies in `'A'..'Z'`
(65..90) and the byte at `i` equals the byte at `i + 26` whenever both are in
range.  The content does not depend on the run: any buffer of that length
obeying the fill rule is this buffer, and every run constructs it first,
whatever the capability. -/
theorem src_buf_cyclic_pattern :
    main_src_len = 10485760 ∧
    (src_buf main_src_len).length = 10485760 ∧
    (∀ i, i < 10485760 → (src_buf main_src_len)[i]? = some ('A'.toNat + i % 26)) ∧
    (∀ b ∈ src_buf main_src_len, 'A'.toNat ≤ b ∧ b ≤ 'Z'.toNat) ∧
    (∀ i, i + 26 < 10485760 →
      (src_buf main_src_len)[i]? = (src_buf main_src_len)[i + 26]?) ∧
    (∀ b : Buf, b.length = 10485760 → (∀ i, i < 10485760 → b[i]? = some ('A'.toNat + i % 26)) →
      b = src_buf main_src_len) ∧
    (∀ E cap, (main E cap).events.head? = some (Event.alloc_src 10485760)) ∧
    (∀ cap s, compress_call cap s main_src_len =
      cap.compress s (src_buf main_src_len) (comp_buf_init cap s main_src_len)
        (static_cast_int main_src_len) (max_comp_len cap s main_src_len)) := by
  have hN : main_src_len = 10485760 := by decide
  have hA : 'A'.toNat = 65 := by decide
  have hZ : 'Z'.toNat = 90 := by decide
  have hget : ∀ i, i < 10485760 → (src_buf 10485760)[i]? = some (65 + i % 26) :=
    fun i hi => src_buf_getElem? _ i hi
  have hrange : ∀ b ∈ src_buf 10485760, 65 ≤ b ∧ b ≤ 90 := by
    intro b hb
    obtain ⟨i, hi, rfl⟩ := List.getElem_of_mem hb
    have hi' : i < 10485760 := by rw [src_buf_length] at hi; exact hi
    have h1 := hget i hi'
    rw [List.getElem?_eq_getElem hi] at h1
    rw [Option.some.inj h1]
    omega
  have hperiod : ∀ i, i + 26 < 10485760 →
      (src_buf 10485760)[i]? = (src_buf 10485760)[i + 26]? := by
    intro i hi
    rw [hget i (by omega), hget (i + 26) hi]
    congr 2
    omega
  have hfirst : ∀ E cap,
      (harness E 10485760 cap).events.head? = some (Event.alloc_src 10485760) := by
    intro E cap
    have h0 : vector_throws 10485760 = false := by decide
    have hev := harness_events E 10485760 cap
    simp only [h0, Bool.false_eq_true, if_false, ev_source, List.cons_append,
      List.nil_append] at hev
    rw [hev]
    rfl
  unfold main
  rw [hN, hA, hZ]
  exact ⟨rfl, src_buf_length _, hget, hrange, hperiod,
    fun b hl hb => src_buf_unique _ b hl hb, hfirst, fun cap s => rfl⟩

/-- C10. `getLzavErrorString` classifies the closed set of error codes.  For
pairwise different, negative constants `LZAV_E_*`: each of the seven codes
maps to its own message, which begins with the name of the code; the seven
messages are pairwise distinct and none of them is the "unknown error"
message; every other integer, and in particular every non-negative one, maps
to the single "unknown error" message. -/
theorem getLzavErrorString_classifies (E : ErrorCodes) (hd : E.distinct) (hn : E.negative) :
    (getLzavErrorString E E.LZAV_E_PARAMS = "LZAV_E_PARAMS: 参数不正确。" ∧
     getLzavErrorString E E.LZAV_E_SRCOOB = "LZAV_E_SRCOOB: 源缓冲区越界。" ∧
     getLzavErrorString E E.LZAV_E_DSTOOB = "LZAV_E_DSTOOB: 目标缓冲区越界。" ∧
     getLzavErrorString E E.LZAV_E_REFOOB = "LZAV_E_REFOOB: 后向引用越界。" ∧
     getLzavErrorString E E.LZAV_E_DSTLEN = "LZAV_E_DSTLEN: 解压缩长度不匹配。" ∧
     getLzavErrorString E E.LZAV_E_UNKFMT = "LZAV_E_UNKFMT: 未知流格式。" ∧
     getLzavErrorString E E.LZAV_E_PTROVR = "LZAV_E_PTROVR: 指针溢出。") ∧
    (∀ p ∈ E.named, p.2.data <+: (getLzavErrorString E p.1).data) ∧
    (E.all.map (getLzavErrorString E)).Nodup ∧
    msg_unknown ∉ E.all.map (getLzavErrorString E) ∧
    (∀ c : Int, c ∉ E.all → getLzavErrorString E c = msg_unknown) ∧
    (∀ c : Int, 0 ≤ c → getLzavErrorString E c = msg_unknown) := by
  have hd' := hd
  simp only [ErrorCodes.distinct, ErrorCodes.all, List.nodup_cons, List.mem_cons,
    List.mem_singleton, not_or, List.not_mem_nil, List.nodup_nil, not_false_eq_true,
    and_true, List.mem_nil_iff, or_false] at hd'
  obtain ⟨⟨a1, a2, a3, a4, a5, a6⟩, ⟨b2, b3, b4, b5, b6⟩, ⟨c3, c4, c5, c6⟩, ⟨d4, d5, d6⟩,
    ⟨e5, e6⟩, f6⟩ := hd'
  have m1 : getLzavErrorString E E.LZAV_E_PARAMS = "LZAV_E_PARAMS: 参数不正确。" := by
    simp [getLzavErrorString]
  have m2 : getLzavErrorString E E.LZAV_E_SRCOOB = "LZAV_E_SRCOOB: 源缓冲区越界。" := by
    simp [getLzavErrorString, Ne.symm a1]
  have m3 : getLzavErrorString E E.LZAV_E_DSTOOB = "LZAV_E_DSTOOB: 目标缓冲区越界。" := by
    simp [getLzavErrorString, Ne.symm a2, Ne.symm b2]
  have m4 : getLzavErrorString E E.LZAV_E_REFOOB = "LZAV_E_REFOOB: 后向引用越界。" := by
    simp [getLzavErrorString, Ne.symm a3, Ne.symm b3, Ne.symm c3]
  have m5 : getLzavErrorString E E.LZAV_E_DSTLEN = "LZAV_E_DSTLEN: 解压缩长度不匹配。" := by
    simp [getLzavErrorString, Ne.symm a4, Ne.symm b4, Ne.symm c4, Ne.symm d4]
  have m6 : getLzavErrorString E E.LZAV_E_UNKFMT = "LZAV_E_UNKFMT: 未知流格式。" := by
    simp [getLzavErrorString, Ne.symm a5, Ne.symm b5, Ne.symm c5, Ne.symm d5, Ne.symm e5]
  have m7 : getLzavErrorString E E.LZAV_E_PTROVR = "LZAV_E_PTROVR: 指针溢出。" := by
    simp [getLzavErrorString, Ne.symm a6, Ne.symm b6, Ne.symm c6, Ne.symm d6, Ne.symm e6,
      Ne.symm f6]
  refine ⟨⟨m1, m2, m3, m4, m5, m6, m7⟩, ?_, ?_, ?_, getLzavErrorString_of_not_mem E, ?_⟩
  · intro p hp
    simp only [ErrorCodes.named, List.mem_cons, List.mem_singleton, List.mem_nil_iff,
      or_false] at hp
    rcases hp with rfl | rfl | rfl | rfl | rfl | rfl | rfl
    · rw [m1]; dsimp only; decide
    · rw [m2]; dsimp only; decide
    · rw [m3]; dsimp only; decide
    · rw [m4]; dsimp only; decide
    · rw [m5]; dsimp only; decide
    · rw [m6]; dsimp only; decide
    · rw [m7]; dsimp only; decide
  · simp only [ErrorCodes.all, List.map_cons, List.map_nil, m1, m2, m3, m4, m5, m6, m7]
    decide
  · simp only [ErrorCodes.all, List.map_cons, List.map_nil, m1, m2, m3, m4, m5, m6, m7,
      msg_unknown]
    decide
  · intro c hc
    apply getLzavErrorString_of_not_mem
    intro hmem
    have := hn c hmem
    omega

/-- C10, concrete codes: with the constants `-1 … -7`, the code `-5` is
classified as `LZAV_E_DSTLEN`, and `-8` and `0` are unknown. -/
theorem getLzavErrorString_classifies_witness :
    lzav_codes.distinct ∧ lzav_codes.negative ∧
    getLzavErrorString lzav_codes (-5) = "LZAV_E_DSTLEN: 解压缩长度不匹配。" ∧
    getLzavErrorString lzav_codes (-8) = msg_unknown ∧
    getLzavErrorString lzav_codes 0 = msg_unknown :=
  have h := getLzavErrorString_classifies lzav_codes (by decide) (by decide)
  ⟨by decide, by decide, h.1.2.2.2.2.1, h.2.2.2.2.1 (-8) (by decide), h.2.2.2.2.2 0 (by decide)⟩

/-- C2. The integrity check applied after each strategy's decompression: for
every source buffer and decompressed buffer of `src_len` bytes and every
non-negative `decomp_len`, the condition holds if and only if
`decomp_len == src_len` and the two buffers hold the same byte at every
offset `0 ≤ i < src_len`.  In a run, whenever the check of a strategy is
evaluated it is evaluated on the source buffer and that strategy's
decompressed buffer, both of `src_len` bytes, with a non-negative
`decomp_len`; when it holds the run writes the "pass" verdict and no failure
diagnostic, and in every other case it writes the failure diagnostic, no
"pass" verdict, and returns 1. -/
theorem verify_pass_iff (E : ErrorCodes) (src_len : Nat) (cap : Capability) (s : Strategy) :
    (∀ (source decompressed : Buf) (decomp_len : CInt),
      source.length = src_len → decompressed.length = src_len → 0 ≤ decomp_len.val →
      (verify source decompressed src_len decomp_len = true ↔
        decomp_len.val = src_len ∧ ∀ i, i < src_len → source[i]? = decompressed[i]?)) ∧
    (∀ ok : Bool, Event.verify s ok ∈ (harness E src_len cap).events →
      ok = verify (src_buf src_len) (decomp_buf cap s src_len) src_len (decomp_len cap s src_len) ∧
      (src_buf src_len).length = src_len ∧ (decomp_buf cap s src_len).length = src_len ∧
      0 ≤ (decomp_len cap s src_len).val ∧
      (ok = true ↔ (decomp_len cap s src_len).val = src_len ∧
        ∀ i, i < src_len → (src_buf src_len)[i]? = (decomp_buf cap s src_len)[i]?) ∧
      (ok = true → Event.cout (msg_verify_pass s) ∈ (harness E src_len cap).events ∧
        Event.cerr (msg_verify_fail s) ∉ (harness E src_len cap).events) ∧
      (ok = false → Event.cerr (msg_verify_fail s) ∈ (harness E src_len cap).events ∧
        Event.cout (msg_verify_pass s) ∉ (harness E src_len cap).events ∧
        (harness E src_len cap).outcome = .returned 1)) := by
  refine ⟨fun a b d ha hb hd => verify_iff a b src_len d ha hb hd, ?_⟩
  intro ok hmem
  rw [mem_harness_verify] at hmem
  obtain ⟨hent, hrv, rfl⟩ := hmem
  have h0 := reaches_verify_nonneg cap s src_len hrv
  refine ⟨rfl, src_buf_length _, decomp_buf_length _ _ _, h0, verified_iff cap s src_len h0,
    ?_, ?_⟩
  · intro hok
    refine ⟨(mem_harness_pass E src_len cap s).mpr ⟨hent, hrv, hok⟩, ?_⟩
    rw [mem_harness_verify_fail]
    rintro ⟨-, -, h⟩
    rw [hok] at h
    exact Bool.noConfusion h
  · intro hok
    refine ⟨?_, ?_, ?_⟩
    · exact (mem_harness_verify_fail E src_len cap s).mpr ⟨hent, hrv, hok⟩
    · rw [mem_harness_pass]
      rintro ⟨-, -, h⟩
      rw [hok] at h
      exact Bool.false_ne_true h
    · apply harness_outcome_of_exit E src_len cap s _ hent
      rw [run_strategy_exit_one_iff]
      exact Or.inr (Or.inr (Or.inr ⟨hrv, hok⟩))

/-- C2, concrete runs: a passed check of the high-ratio strategy with the
copying capability, and a failed check of the default strategy with a
capability that writes back wrong bytes. -/
theorem verify_pass_iff_witness :
    (Event.verify .hi true ∈ (harness lzav_codes 3 cap_copy).events ∧
      (decomp_len cap_copy .hi 3).val = 3 ∧
      Event.cout (msg_verify_pass .hi) ∈ (harness lzav_codes 3 cap_copy).events) ∧
    (Event.verify .dflt false ∈ (harness lzav_codes 3 cap_corrupt).events ∧
      Event.cerr (msg_verify_fail .dflt) ∈ (harness lzav_codes 3 cap_corrupt).events ∧
      (harness lzav_codes 3 cap_corrupt).outcome = .returned 1) :=
  have h1 : Event.verify .hi true ∈ (harness lzav_codes 3 cap_copy).events := by decide
  have h2 : Event.verify .dflt false ∈ (harness lzav_codes 3 cap_corrupt).events := by decide
  have t1 := (verify_pass_iff lzav_codes 3 cap_copy .hi).2 true h1
  have t2 := (verify_pass_iff lzav_codes 3 cap_corrupt .dflt).2 false h2
  ⟨⟨h1, (t1.2.2.2.2.1.mp rfl).1, (t1.2.2.2.2.2.1 rfl).1⟩,
   ⟨h2, (t2.2.2.2.2.2.2 rfl).1, (t2.2.2.2.2.2.2 rfl).2.2⟩⟩

/-- C1 (as amended). As a function of what the capability returns, `main`
returns exit code 0 if and only if both strategies pass verification, that
is, the integrity condition is evaluated for both and holds; a passed
verification means that the decompressed length is `src_len` and the
decompressed buffer equals the source buffer byte for byte.  Equivalently,
`main` returns 0 exactly when, for both strategies, bound and compressed
length are positive, the decompressed length is `src_len` and the buffers are
equal.  A zero bound, a non-positive compression result, a negative
decompression result and a failed integrity condition each make `main` return
the non-zero exit code 1.  A negative bound is not answered with an exit
code: the construction of the compressed buffer throws, the process is
terminated and `main` returns no code at all; this is the only way in which a
run ends without returning 0 or 1. -/
theorem main_returns_zero_iff (E : ErrorCodes) (cap : Capability) :
    ((main E cap).outcome = .returned 0 ↔
      Event.verify .dflt true ∈ (main E cap).events ∧
      Event.verify .hi true ∈ (main E cap).events) ∧
    (∀ s, Event.verify s true ∈ (main E cap).events →
      (decomp_len cap s main_src_len).val = 10485760 ∧
      (src_buf main_src_len).length = 10485760 ∧
      (decomp_buf cap s main_src_len).length = 10485760 ∧
      ∀ i, i < 10485760 → (decomp_buf cap s main_src_len)[i]? = (src_buf main_src_len)[i]?) ∧
    ((main E cap).outcome = .returned 0 ↔
      ∀ s, 0 < (max_comp_len cap s main_src_len).val ∧ 0 < (comp_len cap s main_src_len).val ∧
        (decomp_len cap s main_src_len).val = 10485760 ∧
        decomp_buf cap s main_src_len = src_buf main_src_len) ∧
    (∀ s a, Event.bound s a 0 ∈ (main E cap).events → (main E cap).outcome = .returned 1) ∧
    (∀ s a b c, Event.compress s a b c ∈ (main E cap).events → c ≤ 0 →
      (main E cap).outcome = .returned 1) ∧
    (∀ s a b c, Event.decompress s a b c ∈ (main E cap).events → c < 0 →
      (main E cap).outcome = .returned 1) ∧
    (∀ s, Event.verify s false ∈ (main E cap).events → (main E cap).outcome = .returned 1) ∧
    (((main E cap).outcome = .returned 0 ∨ (main E cap).outcome = .returned 1 ∨
      ((main E cap).outcome = .terminated ∧
        ∃ s a b, Event.bound s a b ∈ (main E cap).events ∧ b < 0)) ∧
     (∀ s a b, Event.bound s a b ∈ (main E cap).events → b < 0 →
        (main E cap).outcome = .terminated ∧ ∀ c, (main E cap).outcome ≠ .returned c) ∧
     ((main E cap).outcome = .terminated ↔
        ∃ s a b, Event.bound s a b ∈ (main E cap).events ∧ b < 0)) := by
  obtain ⟨h0, hn, -, hN⟩ := main_src_len_facts
  have hNi : ((main_src_len : Nat) : Int) = 10485760 := by rw [hN]; rfl
  unfold main
  have hterm : (harness E main_src_len cap).outcome = .terminated →
      ∃ s a b, Event.bound s a b ∈ (harness E main_src_len cap).events ∧ b < 0 := by
    intro h
    obtain ⟨s, hent, hneg⟩ := harness_outcome_terminated E _ cap h0 h
    exact ⟨s, _, _, (mem_harness_bound E _ cap s _ _).mpr ⟨hent, rfl, rfl⟩, hneg⟩
  refine ⟨harness_outcome_zero_iff_verify E _ cap, ?_, ?_, ?_, ?_, ?_, ?_, ?_, ?_, ?_⟩
  · intro s hs
    rw [mem_harness_verify_true] at hs
    have hp := (passes_iff cap s _ h0 hn).mp hs.2
    refine ⟨by rw [hp.2.2.1, hNi], by rw [src_buf_length, hN], by rw [decomp_buf_length, hN], ?_⟩
    intro i _
    rw [hp.2.2.2]
  · rw [harness_outcome_zero_iff, passes_iff cap _ _ h0 hn, passes_iff cap _ _ h0 hn, ← hNi]
    constructor
    · rintro ⟨-, h1, h2⟩ s
      cases s
      · exact h1
      · exact h2
    · intro h
      exact ⟨h0, h .dflt, h .hi⟩
  · intro s a h
    exact harness_outcome_one_of_bound E _ cap s a hn h
  · intro s a b c h hc
    apply harness_outcome_one_of_compress E _ cap s a b c h
    rcases hc.lt_or_eq with h1 | h1
    · exact Or.inl h1
    · exact Or.inr ⟨h1, hn⟩
  · intro s a b c h hc
    exact harness_outcome_one_of_decompress E _ cap s a b c h hc
  · intro s h
    exact harness_outcome_one_of_verify E _ cap s h
  · rcases harness_outcome_cases E main_src_len cap with h | h | h
    · exact Or.inl h
    · exact Or.inr (Or.inl h)
    · exact Or.inr (Or.inr ⟨h, hterm h⟩)
  · intro s a b h hb
    have ht := harness_outcome_terminated_of_bound E _ cap s a b h hb
    refine ⟨ht, ?_⟩
    intro c hc
    rw [ht] at hc
    exact Outcome.noConfusion hc
  · constructor
    · exact hterm
    · rintro ⟨s, a, b, h, hb⟩
      exact harness_outcome_terminated_of_bound E _ cap s a b h hb

/-- C1, concrete runs: with the copying capability `main` returns 0; with a
capability that writes back wrong bytes it returns 1. -/
theorem main_returns_zero_iff_witness :
    (main lzav_codes cap_copy).outcome = .returned 0 ∧
    (main lzav_codes cap_corrupt).outcome = .returned 1 :=
  have hp : ∀ s, passes cap_copy s main_src_len := fun s =>
    cap_copy_passes s main_src_len (by decide) (by decide)
  have h0 := main_src_len_facts
  have t1 := main_returns_zero_iff lzav_codes cap_copy
  have t2 := main_returns_zero_iff lzav_codes cap_corrupt
  ⟨t1.1.mpr ⟨(mem_harness_verify_true _ _ _ _).mpr ⟨⟨h0.1, fun _ => hp .dflt⟩, hp .dflt⟩,
      (mem_harness_verify_true _ _ _ _).mpr ⟨⟨h0.1, fun _ => hp .dflt⟩, hp .hi⟩⟩,
    t2.2.2.2.2.2.2.1 .dflt (by decide)⟩

/-- C1, counterexample. With a default bound of `-2147483648` for the 10 MiB
source there is a bounds error (a non-positive bound for a non-empty source),
yet `main` does not return a non-zero exit code: it returns no code at all,
the process being terminated in the construction of the compressed buffer. -/
theorem bounds_error_without_exit_code :
    Event.bound .dflt 10485760 (-2147483648) ∈ (main lzav_codes cap_min_bound).events ∧
    (Event.bound .dflt 10485760 (-2147483648)).failed main_src_len = true ∧
    (-2147483648 : Int) ≤ 0 ∧ 0 < main_src_len ∧
    (main lzav_codes cap_min_bound).outcome = .terminated ∧
    ¬ ∃ c, (main lzav_codes cap_min_bound).outcome = .returned c := by
  have ht : (main lzav_codes cap_min_bound).outcome = .terminated := by decide
  refine ⟨by decide, by decide, by decide, by decide, ht, ?_⟩
  rintro ⟨c, hc⟩
  rw [ht] at hc
  exact Outcome.noConfusion hc

/-- C3 (as amended). For each strategy and every run over a non-empty source:
if the bound function returns zero, the run ends right after the bound call
with the zero-bound diagnostic and exit code 1, and neither the construction
of that strategy's compressed buffer nor its compression call takes place.
A negative bound is not tested for: the run goes on to construct the
compressed buffer with the converted size, the construction throws, and the
run is terminated there, without a diagnostic of the harness and without the
compression call. -/
theorem bound_zero_aborts (E : ErrorCodes) (src_len : Nat) (cap : Capability) (s : Strategy)
    (a b : Int) (hn : src_len ≠ 0)
    (hmem : Event.bound s a b ∈ (harness E src_len cap).events) :
    (b = 0 →
      (harness E src_len cap).outcome = .returned 1 ∧
      (∃ pre, (harness E src_len cap).events
          = pre ++ [Event.bound s a 0, Event.cerr (msg_bound_zero s)]) ∧
      (∀ k, Event.alloc_comp s k ∉ (harness E src_len cap).events) ∧
      (∀ a' b' c', Event.compress s a' b' c' ∉ (harness E src_len cap).events)) ∧
    (b < 0 →
      (harness E src_len cap).outcome = .terminated ∧
      (∃ pre, (harness E src_len cap).events
          = pre ++ [Event.bound s a b, Event.alloc_comp s (b + 18446744073709551616).toNat]) ∧
      (∀ a' b' c', Event.compress s a' b' c' ∉ (harness E src_len cap).events)) := by
  rw [mem_harness_bound] at hmem
  obtain ⟨hent, rfl, rfl⟩ := hmem
  constructor
  · intro hb
    have hz := (bound_zero_iff cap s src_len).mpr ⟨hb, hn⟩
    have hrun := run_strategy_of_bound_zero E cap s src_len hz
    have hx : (run_strategy E cap s src_len).exit = some (.returned 1) := by rw [hrun]
    refine ⟨harness_outcome_of_exit E _ cap s _ hent hx, ?_, ?_, ?_⟩
    · obtain ⟨pre, hpre⟩ := harness_events_of_exit E _ cap s _ hent hx
      refine ⟨pre ++ report_before_bound s, ?_⟩
      rw [hpre, hrun, ← hb]
      simp [ev_bound]
    · intro k hk
      rw [mem_harness_alloc_comp] at hk
      rw [hk.2.2] at hz
      exact Bool.noConfusion hz
    · intro a' b' c' hk
      rw [mem_harness_compress] at hk
      rw [hk.2.1.1] at hz
      exact Bool.noConfusion hz
  · intro hb
    have hz : bound_zero cap s src_len = false := by
      rw [← Bool.not_eq_true, bound_zero_iff]
      intro h
      omega
    have ht := (comp_alloc_throws_iff cap s src_len).mpr hb
    have hrun := run_strategy_of_alloc_throws E cap s src_len hz ht
    have hx : (run_strategy E cap s src_len).exit = some .terminated := by rw [hrun]
    refine ⟨harness_outcome_of_exit E _ cap s _ hent hx, ?_, ?_⟩
    · obtain ⟨pre, hpre⟩ := harness_events_of_exit E _ cap s _ hent hx
      refine ⟨pre ++ report_before_bound s, ?_⟩
      have hc := static_cast_size_t_of_neg _ hb
      have : static_cast_size_t (max_comp_len cap s src_len)
          = ((max_comp_len cap s src_len).val + 18446744073709551616).toNat := by omega
      rw [hpre, hrun, ← this]
      simp [ev_alloc_comp, ev_bound]
    · intro a' b' c' hk
      rw [mem_harness_compress] at hk
      rw [hk.2.1.2] at ht
      exact Bool.noConfusion ht

/-- C3, concrete run: a zero bound of the high-ratio strategy for a source of
three bytes. -/
theorem bound_zero_aborts_witness :
    (harness lzav_codes 3 cap_zero_bound).outcome = .returned 1 ∧
    (∀ k, Event.alloc_comp .hi k ∉ (harness lzav_codes 3 cap_zero_bound).events) ∧
    (∀ a' b' c', Event.compress .hi a' b' c' ∉ (harness lzav_codes 3 cap_zero_bound).events) :=
  have h := (bound_zero_aborts lzav_codes 3 cap_zero_bound .hi 3 0 (by decide) (by decide)).1 rfl
  ⟨h.1, h.2.2.1, h.2.2.2⟩

/-- C3, counterexample. With a default bound of `-1` for the 10 MiB source,
`main` does not stop before the buffer construction: the construction of the
compressed buffer is attempted with size `2^64 - 1`, no diagnostic is written,
and the run does not end by returning. -/
theorem bound_negative_not_rejected :
    (main lzav_codes cap_neg_bound).events =
      [Event.alloc_src 10485760, Event.cout "原始数据长度: 10485760 字节",
       Event.bound .dflt 10485760 (-1), Event.alloc_comp .dflt 18446744073709551615] ∧
    Event.alloc_comp .dflt 18446744073709551615 ∈ (main lzav_codes cap_neg_bound).events ∧
    (main lzav_codes cap_neg_bound).outcome = .terminated ∧
    (main lzav_codes cap_neg_bound).outcome ≠ .returned 1 := by
  decide

/-- C5 (as amended). For each strategy, whenever the harness accepts a
compression result and goes on to decompression: the capacity passed to the
compression call is the value `bound(src_len)` returned by the bound
function, the compressed buffer was constructed with that size, and the
accepted `comp_len` satisfies `0 ≤ comp_len`, with `0 < comp_len` when
`src_len` is not zero.  The harness does not compare `comp_len` with the
bound: `comp_len ≤ bound(src_len)` holds for a capability whose compression
function never returns more than the capacity it is given. -/
theorem accepted_comp_len_bounds (E : ErrorCodes) (src_len : Nat) (cap : Capability)
    (s : Strategy) (srcl dstl c x y z : Int)
    (hmem : Event.compress s srcl dstl c ∈ (harness E src_len cap).events)
    (hacc : Event.decompress s x y z ∈ (harness E src_len cap).events) :
    dstl = (cap.bound s (static_cast_int src_len)).val ∧
    srcl = (static_cast_int src_len).val ∧
    Event.bound s srcl dstl ∈ (harness E src_len cap).events ∧
    Event.alloc_comp s dstl.toNat ∈ (harness E src_len cap).events ∧
    0 ≤ dstl ∧ x = c ∧ 0 ≤ c ∧ (src_len ≠ 0 → 0 < c) ∧
    ((∀ src dst a b, 0 ≤ b.val → (cap.compress s src dst a b).1.val ≤ b.val) → c ≤ dstl) := by
  rw [mem_harness_compress] at hmem
  rw [mem_harness_decompress] at hacc
  obtain ⟨hent, hrc, rfl, rfl, rfl⟩ := hmem
  obtain ⟨-, hrd, rfl, -, -⟩ := hacc
  have hrc' := (reaches_compress_iff cap s src_len).mp hrc
  have hrd' := (reaches_decompress_iff cap s src_len).mp hrd
  obtain ⟨-, hc1, hc2, -⟩ := hrd'
  have hsz := static_cast_size_t_of_nonneg _ hrc'.2
  refine ⟨rfl, rfl, ?_, ?_, hrc'.2, rfl, hc2, ?_, ?_⟩
  · rw [mem_harness_bound]
    exact ⟨hent, rfl, rfl⟩
  · rw [mem_harness_alloc_comp]
    refine ⟨hent, ?_, hrc.1⟩
    omega
  · intro hn
    rcases hc2.lt_or_eq with h | h
    · exact h
    · exact absurd ⟨h.symm, hn⟩ hc1
  · intro hcap
    exact hcap _ _ _ _ hrc'.2

/-- C5, concrete run: the copying capability respects the capacity, and its
accepted `comp_len = 3` lies between `0` and the bound `19`. -/
theorem accepted_comp_len_bounds_witness :
    Event.compress .hi 3 19 3 ∈ (harness lzav_codes 3 cap_copy).events ∧
    Event.decompress .hi 3 3 3 ∈ (harness lzav_codes 3 cap_copy).events ∧
    (0 : Int) ≤ 3 ∧ (3 : Int) ≤ 19 :=
  have t := accepted_comp_len_bounds lzav_codes 3 cap_copy .hi 3 19 3 3 3 3 (by decide)
    (by decide)
  ⟨by decide, by decide, t.2.2.2.2.2.2.1,
    t.2.2.2.2.2.2.2.2 (fun src dst a b hb => by
      simp only [Capability.compress, cap_copy, copy_compress]
      split
      · assumption
      · exact hb)⟩

/-- C5, counterexample. A capability whose bound is `1` and whose compression
function returns `2`: `main` accepts the result and calls `lzav_decompress`
with `comp_len = 2`, although `2` exceeds the capacity `1` of the compressed
buffer. -/
theorem comp_len_above_bound_accepted :
    Event.bound .dflt 10485760 1 ∈ (main lzav_codes cap_overrun).events ∧
    Event.alloc_comp .dflt 1 ∈ (main lzav_codes cap_overrun).events ∧
    Event.compress .dflt 10485760 1 2 ∈ (main lzav_codes cap_overrun).events ∧
    Event.cout "压缩数据长度: 2 字节" ∈ (main lzav_codes cap_overrun).events ∧
    Event.decompress .dflt 2 10485760 3 ∈ (main lzav_codes cap_overrun).events ∧
    ¬ ((2 : Int) ≤ 1) := by
  decide

/-- C6 (as amended). For `src_len == 0` nothing is short-circuited: the bound,
compression and decompression functions are called as for any other length,
and the run depends on what they return.  A zero bound and a zero `comp_len`
are not errors for `src_len == 0`: the run ends with exit code 0 exactly when,
for both strategies, the bound is not negative, `comp_len` is not negative and
`decomp_len == 0`.  In particular, when for both strategies the compression
and decompression functions return 0 and the bound is not negative, each
strategy run is a trivial success (`comp_len == 0`, `decomp_len == 0`,
verification true) that ends in exit code 0 without a diagnostic.  A negative
compression or decompression result still ends the run with exit code 1. -/
theorem zero_length_run (E : ErrorCodes) (cap : Capability) :
    (Event.bound .dflt 0 (max_comp_len cap .dflt 0).val ∈ (harness E 0 cap).events) ∧
    ((harness E 0 cap).outcome = .returned 0 ↔
      ∀ s, 0 ≤ (max_comp_len cap s 0).val ∧ 0 ≤ (comp_len cap s 0).val ∧
        (decomp_len cap s 0).val = 0) ∧
    ((∀ s, 0 ≤ (max_comp_len cap s 0).val ∧ (comp_len cap s 0).val = 0 ∧
        (decomp_len cap s 0).val = 0) →
      (harness E 0 cap).outcome = .returned 0 ∧
      (∀ l, Event.cerr l ∉ (harness E 0 cap).events) ∧
      ∀ s, Event.compress s 0 (max_comp_len cap s 0).val 0 ∈ (harness E 0 cap).events ∧
        Event.decompress s 0 0 0 ∈ (harness E 0 cap).events ∧
        Event.verify s true ∈ (harness E 0 cap).events) ∧
    (∀ s a b c, Event.compress s a b c ∈ (harness E 0 cap).events → c < 0 →
      (harness E 0 cap).outcome = .returned 1) ∧
    (∀ s a b c, Event.decompress s a b c ∈ (harness E 0 cap).events → c < 0 →
      (harness E 0 cap).outcome = .returned 1) := by
  have h0 := vector_throws_zero
  have hz : (static_cast_int 0).val = 0 := by decide
  have hiff : (harness E 0 cap).outcome = .returned 0 ↔
      ∀ s, 0 ≤ (max_comp_len cap s 0).val ∧ 0 ≤ (comp_len cap s 0).val ∧
        (decomp_len cap s 0).val = 0 := by
    rw [harness_outcome_zero_iff, passes_zero_iff, passes_zero_iff]
    constructor
    · rintro ⟨-, h1, h2⟩ s
      cases s
      · exact h1
      · exact h2
    · intro h
      exact ⟨h0, h .dflt, h .hi⟩
  refine ⟨?_, hiff, ?_, ?_, ?_⟩
  · rw [mem_harness_bound]
    exact ⟨⟨h0, by simp⟩, hz.symm, rfl⟩
  · intro h
    have hp : ∀ s, passes cap s 0 := fun s =>
      (passes_zero_iff cap s).mpr ⟨(h s).1, by rw [(h s).2.1], (h s).2.2⟩
    have hent : ∀ s, entered cap s 0 := fun s => ⟨h0, fun _ => hp .dflt⟩
    refine ⟨hiff.mpr fun s => ⟨(h s).1, by rw [(h s).2.1], (h s).2.2⟩, ?_, ?_⟩
    · intro l hl
      rw [mem_harness_cerr] at hl
      obtain ⟨s, -, hl⟩ := hl
      obtain ⟨⟨⟨⟨hb1, hb2⟩, hc1, hc2, -⟩, hd⟩, hv⟩ := hp s
      rcases hl with ⟨-, hx⟩ | ⟨-, -, hx⟩ | ⟨-, -, -, hx⟩ | ⟨-, -, hx⟩ | ⟨-, -, hx⟩
      · rw [hb1] at hx; exact Bool.noConfusion hx
      · rw [hc1] at hx; exact Bool.noConfusion hx
      · rw [hc2] at hx; exact Bool.noConfusion hx
      · rw [hd] at hx; exact Bool.noConfusion hx
      · rw [hv] at hx; exact Bool.noConfusion hx
    · intro s
      refine ⟨?_, ?_, ?_⟩
      · rw [mem_harness_compress]
        exact ⟨hent s, (hp s).1.1.1, hz.symm, rfl, (h s).2.1.symm⟩
      · rw [mem_harness_decompress]
        exact ⟨hent s, (hp s).1.1, (h s).2.1.symm, hz.symm, (h s).2.2.symm⟩
      · rw [mem_harness_verify_true]
        exact ⟨hent s, hp s⟩
  · intro s a b c hmem hc
    exact harness_outcome_one_of_compress E 0 cap s a b c hmem (Or.inl hc)
  · intro s a b c hmem hc
    exact harness_outcome_one_of_decompress E 0 cap s a b c hmem hc

/-- C6, concrete run: for an empty source and a capability that returns `0`
throughout, the run calls compression and decompression and ends with exit
code 0 without a diagnostic. -/
theorem zero_length_run_witness :
    (harness lzav_codes 0 cap_all_zero).outcome = .returned 0 ∧
    (∀ l, Event.cerr l ∉ (harness lzav_codes 0 cap_all_zero).events) ∧
    Event.compress .dflt 0 0 0 ∈ (harness lzav_codes 0 cap_all_zero).events ∧
    Event.decompress .hi 0 0 0 ∈ (harness lzav_codes 0 cap_all_zero).events :=
  have t := (zero_length_run lzav_codes cap_all_zero).2.2.1
    (fun s => by cases s <;> decide)
  ⟨t.1, t.2.1, (t.2.2 .dflt).1, (t.2.2 .hi).2.1⟩

/-- C6, counterexample. For `src_len == 0` the compression function is still
called and its result decides the run: with a default compression result of
`-1` the run goes through the compression error path and ends with exit code
1, while with the copying capability it ends with exit code 0. -/
theorem zero_length_not_short_circuited :
    (harness lzav_codes 0 cap_comp_err).events =
      [Event.alloc_src 0, Event.cout "原始数据长度: 0 字节", Event.bound .dflt 0 19,
       Event.alloc_comp .dflt 19, Event.compress .dflt 0 19 (-1),
       Event.cerr "默认压缩错误! lzav_compress_default 返回: -1"] ∧
    (harness lzav_codes 0 cap_comp_err).outcome = .returned 1 ∧
    (harness lzav_codes 0 cap_copy).outcome = .returned 0 := by
  decide

/-- C7 (as amended). For every negative result of `lzav_decompress`, under
either strategy, the diagnostic written by the harness contains both the
classification produced by `getLzavErrorString` and the raw numeric code, and
the run ends with exit code 1.  For every negative result of a compression
function, under either strategy, the diagnostic contains the raw numeric code
(the harness does not classify compression results), and the run ends with
exit code 1. -/
theorem negative_result_diagnostic (E : ErrorCodes) (src_len : Nat) (cap : Capability)
    (s : Strategy) :
    (∀ a b r, Event.decompress s a b r ∈ (harness E src_len cap).events → r < 0 →
      Event.cerr (msg_decomp_neg E s r) ∈ (harness E src_len cap).events ∧
      (getLzavErrorString E r).data <:+: (msg_decomp_neg E s r).data ∧
      (toString r).data <:+: (msg_decomp_neg E s r).data ∧
      (harness E src_len cap).outcome = .returned 1) ∧
    (∀ a b r, Event.compress s a b r ∈ (harness E src_len cap).events → r < 0 →
      Event.cerr (msg_comp_neg s r) ∈ (harness E src_len cap).events ∧
      (toString r).data <:+: (msg_comp_neg s r).data ∧
      (harness E src_len cap).outcome = .returned 1) := by
  constructor
  · intro a b r hmem hr
    have hout := harness_outcome_one_of_decompress E _ cap s a b r hmem hr
    rw [mem_harness_decompress] at hmem
    obtain ⟨hent, hrd, -, -, rfl⟩ := hmem
    refine ⟨?_, (msg_decomp_neg_contains E s _).2, (msg_decomp_neg_contains E s _).1, hout⟩
    rw [mem_harness_cerr]
    exact ⟨s, hent, Or.inr (Or.inr (Or.inr (Or.inl
      ⟨rfl, hrd, (decomp_neg_iff cap s src_len).mpr hr⟩)))⟩
  · intro a b r hmem hr
    have hout := harness_outcome_one_of_compress E _ cap s a b r hmem (Or.inl hr)
    rw [mem_harness_compress] at hmem
    obtain ⟨hent, hrc, -, -, rfl⟩ := hmem
    refine ⟨?_, msg_comp_neg_contains s _, hout⟩
    rw [mem_harness_cerr]
    refine ⟨s, hent, Or.inr (Or.inr (Or.inl
      ⟨rfl, hrc, ?_, (comp_neg_iff cap s src_len).mpr hr⟩))⟩
    rw [← Bool.not_eq_true, comp_zero_iff]
    intro h
    omega

/-- C7, concrete run: a decompression result of `-5` in `main`. -/
theorem negative_result_diagnostic_witness :
    Event.decompress .dflt 2 10485760 (-5) ∈ (main lzav_codes cap_decomp_err).events ∧
    Event.cerr "默认解压缩错误! 返回 -5 (LZAV_E_DSTLEN: 解压缩长度不匹配。)"
      ∈ (main lzav_codes cap_decomp_err).events ∧
    (main lzav_codes cap_decomp_err).outcome = .returned 1 :=
  have h : Event.decompress .dflt 2 10485760 (-5) ∈ (main lzav_codes cap_decomp_err).events := by
    decide
  have t := (negative_result_diagnostic lzav_codes main_src_len cap_decomp_err .dflt).1
    2 10485760 (-5) h (by decide)
  ⟨h, t.1, t.2.2.2⟩

/-- C7, counterexample. When the default compression function returns the
classified error `-1` (`LZAV_E_PARAMS`), the only diagnostic of the run names
the raw code and does not contain the classification of `getLzavErrorString`. -/
theorem compression_error_not_classified :
    (main lzav_codes cap_comp_err).events =
      [Event.alloc_src 10485760, Event.cout "原始数据长度: 10485760 字节",
       Event.bound .dflt 10485760 19, Event.alloc_comp .dflt 19,
       Event.compress .dflt 10485760 19 (-1),
       Event.cerr "默认压缩错误! lzav_compress_default 返回: -1"] ∧
    getLzavErrorString lzav_codes (-1) = "LZAV_E_PARAMS: 参数不正确。" ∧
    ¬ ((getLzavErrorString lzav_codes (-1)).data
        <:+: "默认压缩错误! lzav_compress_default 返回: -1".data) ∧
    (∀ l, Event.cerr l ∈ (main lzav_codes cap_comp_err).events →
      ¬ ((getLzavErrorString lzav_codes (-1)).data <:+: l.data)) := by
  have hev : (main lzav_codes cap_comp_err).events =
      [Event.alloc_src 10485760, Event.cout "原始数据长度: 10485760 字节",
       Event.bound .dflt 10485760 19, Event.alloc_comp .dflt 19,
       Event.compress .dflt 10485760 19 (-1),
       Event.cerr "默认压缩错误! lzav_compress_default 返回: -1"] := by decide
  have hni : ¬ ((getLzavErrorString lzav_codes (-1)).data
      <:+: "默认压缩错误! lzav_compress_default 返回: -1".data) := by decide
  refine ⟨hev, by decide, hni, ?_⟩
  intro l hl
  rw [hev] at hl
  simp only [List.mem_cons, reduceCtorEq, Event.cerr.injEq, List.mem_nil_iff, or_false,
    false_or] at hl
  rw [hl]
  exact hni

/-- C9. The run is fail-fast.  The steps executed by a run (bound, compress,
decompress, verify for the default strategy, then the same four for the
high-ratio strategy) are an initial part of that sequence, so no step is
executed twice and none out of order.  Once a step fails (a non-positive
bound or a rejected compression result for a non-empty source, a negative
decompression result, a failed integrity condition), it is the last step of
the run and the run does not end with exit code 0: it returns 1 or is
terminated.  In particular, if a step of the default strategy fails, no step
of the high-ratio strategy is executed. -/
theorem fail_fast (E : ErrorCodes) (src_len : Nat) (cap : Capability) :
    (harness E src_len cap).steps <+: schedule ∧
    (harness E src_len cap).steps.Nodup ∧
    (∀ e ∈ (harness E src_len cap).events, e.failed src_len = true →
      (harness E src_len cap).steps.getLast? = e.step? ∧
      ((harness E src_len cap).outcome = .returned 1 ∨
        (harness E src_len cap).outcome = .terminated)) ∧
    (∀ e ∈ (harness E src_len cap).events, e.failed src_len = true →
      ∀ st, e.step? = some (.dflt, st) →
        (∀ a b, Event.bound .hi a b ∉ (harness E src_len cap).events) ∧
        (∀ a b c, Event.compress .hi a b c ∉ (harness E src_len cap).events) ∧
        (∀ a b c, Event.decompress .hi a b c ∉ (harness E src_len cap).events) ∧
        (∀ ok, Event.verify .hi ok ∉ (harness E src_len cap).events)) := by
  have hpre := harness_steps_initial E src_len cap
  refine ⟨hpre, ?_, ?_, ?_⟩
  · exact List.Sublist.nodup hpre.sublist (by decide)
  · intro e hmem hf
    obtain ⟨s, st, o, hst, hent, hx, ho, hlast⟩ := failed_step_section E src_len cap e hmem hf
    constructor
    · rw [harness_steps_of_exit E src_len cap s o hent hx, hst]
      have hne : (run_strategy E cap s src_len).events.filterMap Event.step? ≠ [] := by
        intro h; rw [h] at hlast; exact Option.noConfusion hlast
      rw [List.getLast?_append_of_ne_nil _ hne, hlast]
    · rw [harness_outcome_of_exit E src_len cap s o hent hx]
      exact ho
  · intro e hmem hf st hst
    obtain ⟨s, st', o, hst', hent, hx, -, -⟩ := failed_step_section E src_len cap e hmem hf
    rw [hst] at hst'
    obtain ⟨rfl, -⟩ := Prod.mk.inj (Option.some.inj hst')
    have hno := not_entered_hi E src_len cap o hx
    refine ⟨?_, ?_, ?_, ?_⟩
    · intro a b h; rw [mem_harness_bound] at h; exact hno h.1
    · intro a b c h; rw [mem_harness_compress] at h; exact hno h.1
    · intro a b c h; rw [mem_harness_decompress] at h; exact hno h.1
    · intro ok h; rw [mem_harness_verify] at h; exact hno h.1

/-- C9, concrete run: the verification of the default strategy fails, it is the
last step of the run, the run returns 1 and the high-ratio bound function is
not called. -/
theorem fail_fast_witness :
    (harness lzav_codes 3 cap_corrupt).steps.getLast? = some (.dflt, .verify) ∧
    (harness lzav_codes 3 cap_corrupt).outcome = .returned 1 ∧
    (∀ a b, Event.bound .hi a b ∉ (harness lzav_codes 3 cap_corrupt).events) :=
  have hm : Event.verify .dflt false ∈ (harness lzav_codes 3 cap_corrupt).events := by decide
  have t := fail_fast lzav_codes 3 cap_corrupt
  ⟨(t.2.2.1 _ hm rfl).1, (t.2.2.1 _ hm rfl).2.resolve_right (by decide),
    (t.2.2.2 _ hm rfl .verify rfl).1⟩

end Lzav
